import Mathlib

/-!
Verification of the Timeline Coordinate Engine of React-Modern-Gantt.

Modelling conventions (shallow embedding of the TypeScript source):

* A JavaScript `Date` is its time value: an integer count of milliseconds
  since the epoch (`Int`).  An *invalid* date (time value `NaN`) is `none`
  in `Option Int`.  The host calendar is modelled as a fixed-offset (UTC)
  proleptic Gregorian calendar with no daylight-saving transitions, so the
  ECMAScript calendar-field accessors (`getFullYear`, `getMonth`,
  `getDate`, `getHours`, ...) and field-setting normalisations
  (`setHours(0,0,0,0)`, `setDate(d + k)`, `new Date(y, m, d, ...)`) are
  exact integer arithmetic on the time value.
* A JavaScript `number` is a rational (`ℚ`) or `NaN` (`JsNum.nan`);
  `Math.round x` is `⌊x + 1/2⌋` (round half towards +∞), and constructing
  a `Date` from a fractional number truncates towards zero
  (`ToIntegerOrInfinity`).
* Divisions by quantities the callers always supply positive
  (`unitWidth`, `totalUnits`) are exact rational divisions.
-/

/-- The closed view-mode enumeration of the repository. -/
inductive ViewMode where
  | minute | hour | day | week | month | quarter | year
deriving DecidableEq, Repr

/-! ## Fixed-offset Gregorian calendar (model of the ECMAScript local calendar) -/

/-- Gregorian leap-year rule. -/
def isLeapYear (y : Int) : Bool :=
  (y % 4 == 0 && y % 100 != 0) || y % 400 == 0

/-- Number of days of month `m` (0-based, JavaScript convention) of year `y`. -/
def monthLen (y m : Int) : Int :=
  if m = 1 then (if isLeapYear y then 29 else 28)
  else if m = 3 ∨ m = 5 ∨ m = 8 ∨ m = 10 then 30
  else 31

/-- Days of the month `k` months after January 1970 (`k` may be negative). -/
def mlen (k : Int) : Int := monthLen (1970 + k / 12) (k % 12)

/-- Days from 1970-01-01 to the first day of the month `n` months later. -/
def msdUp : Nat → Int
  | 0 => 0
  | n + 1 => msdUp n + mlen n

/-- Days from the first day of the month `n` months before January 1970 back to 1970-01-01. -/
def msdDn : Nat → Int
  | 0 => 0
  | n + 1 => msdDn n + mlen (-(n + 1 : Nat))

/-- Epoch day number of the first day of the month `k` months after January 1970. -/
def msd (k : Int) : Int :=
  if 0 ≤ k then msdUp k.toNat else - msdDn (-k).toNat

/-- Walk upwards until the month starting after epoch day `d` is found. -/
def upSearch (d : Int) : Nat → Int → Int
  | 0, k => k
  | fuel + 1, k => if msd (k + 1) ≤ d then upSearch d fuel (k + 1) else k

/-- Walk downwards until the month containing epoch day `d` is found. -/
def dnSearch (d : Int) : Nat → Int → Int
  | 0, k => k
  | fuel + 1, k => if d < msd k then dnSearch d fuel (k - 1) else k

/-- Month index (months since January 1970) of the month containing epoch day `d`. -/
def monthOfDay (d : Int) : Int :=
  if 0 ≤ d then upSearch d (d.toNat + 1) 0 else dnSearch d d.natAbs 0

/-- ECMAScript `Day(t)`: epoch day number of time value `t`. -/
def dayNumber (t : Int) : Int := t / 86400000

/-- ECMAScript `MakeDay(y, m, d)` (month overflow normalises into the year). -/
def mkDay (y m d : Int) : Int := msd (12 * (y - 1970) + m) + (d - 1)

/-- Time value of `new Date(y, m, d, h, mi, s, ms)` in the fixed-offset calendar. -/
def mkTime (y m d h mi s ms : Int) : Int :=
  mkDay y m d * 86400000 + h * 3600000 + mi * 60000 + s * 1000 + ms

/-- JavaScript `date.getFullYear()`. -/
def getFullYear (t : Int) : Int := 1970 + monthOfDay (dayNumber t) / 12

/-- JavaScript `date.getMonth()` (0-based). -/
def getMonth (t : Int) : Int := monthOfDay (dayNumber t) % 12

/-- JavaScript `date.getDate()` (1-based day of month). -/
def getDate (t : Int) : Int := dayNumber t - msd (monthOfDay (dayNumber t)) + 1

/-- JavaScript `date.getHours()`. -/
def getHours (t : Int) : Int := t / 3600000 % 24

/-- JavaScript `date.getMinutes()`. -/
def getMinutes (t : Int) : Int := t / 60000 % 60

/-- JavaScript `date.getSeconds()`. -/
def getSeconds (t : Int) : Int := t / 1000 % 60

/-- JavaScript `date.getDay()` (day of week, 0 = Sunday; 1970-01-01 was a Thursday). -/
def getDay (t : Int) : Int := (dayNumber t + 4) % 7

/-! ## JavaScript numbers -/

/-- A JavaScript `number` as consumed by the coordinate mapper: either `NaN`
or a rational value. -/
inductive JsNum where
  | nan
  | num (q : ℚ)
deriving DecidableEq, Repr

/-- JavaScript `Math.round`: round half towards positive infinity. -/
def jsRound (q : ℚ) : Int := ⌊q + 1 / 2⌋

/-- Division of a possibly-NaN number by an ordinary number. -/
def jsDivN (x : JsNum) (d : ℚ) : JsNum :=
  match x with
  | .nan => .nan
  | .num q => .num (q / d)

/-- `Math.round` on a possibly-NaN number; `none` is `NaN`. -/
def jsRoundN (x : JsNum) : Option Int :=
  match x with
  | .nan => none
  | .num q => some (jsRound q)

/-- Truncation towards zero, as applied by `new Date(number)` (`ToIntegerOrInfinity`). -/
def ratTrunc (q : ℚ) : Int := if 0 ≤ q then ⌊q⌋ else ⌈q⌉

namespace TaskService

/-- Effective timeline duration of `calculateDatesFromPosition` (source lines
24-38): the literal window span, overridden by the grid-exact
`totalUnits × unit duration` for the four fixed-duration view modes. -/
def timelineDuration (startDate endDate : Int) (totalUnits : ℚ) (viewMode : ViewMode) : ℚ :=
  match viewMode with
  | .week => totalUnits * 7 * 24 * 60 * 60 * 1000
  | .day => totalUnits * 24 * 60 * 60 * 1000
  | .hour => totalUnits * 60 * 60 * 1000
  | .minute => totalUnits * 60 * 1000
  | _ => ((endDate - startDate : Int) : ℚ)

/-- The snapping stage of `TaskService.calculateDatesFromPosition` (source
lines 19-136), before the terminal window clamp.  The four fixed-duration
branches use the *raw* `left`/`width` (not `safeLeft`/`safeWidth`), so a
`NaN` input propagates to an invalid date there. -/
def snappedDates (left width : JsNum) (startDate endDate : Int)
    (totalUnits unitWidth : ℚ) (viewMode : ViewMode) : Option Int × Option Int :=
  let safeLeft : ℚ := match left with | .nan => 0 | .num q => q
  let safeWidth : ℚ := match width with | .nan => 20 | .num q => if q < 20 then 20 else q
  let msPerPixel : ℚ :=
    timelineDuration startDate endDate totalUnits viewMode / (totalUnits * unitWidth)
  match viewMode with
  | .minute =>
      let minutesFromStart := jsRoundN (jsDivN left unitWidth)
      let minuteSpan := (jsRoundN (jsDivN width unitWidth)).map (max 1)
      let baseMinute := startDate / 60000 * 60000
      let newStartDate := minutesFromStart.map (fun k => (baseMinute + k * 60000) / 60000 * 60000)
      let newEndDate := newStartDate.bind (fun ns =>
        minuteSpan.map (fun sp => (ns + (sp - 1) * 60000) / 60000 * 60000 + 59999))
      (newStartDate, newEndDate)
  | .hour =>
      let hoursFromStart := jsRoundN (jsDivN left unitWidth)
      let hourSpan := (jsRoundN (jsDivN width unitWidth)).map (max 1)
      let baseHour := startDate / 3600000 * 3600000
      let newStartDate := hoursFromStart.map (fun k => (baseHour + k * 3600000) / 3600000 * 3600000)
      let newEndDate := newStartDate.bind (fun ns =>
        hourSpan.map (fun sp => (ns + (sp - 1) * 3600000) / 3600000 * 3600000 + 3599999))
      (newStartDate, newEndDate)
  | .day =>
      let daysFromStart := jsRoundN (jsDivN left unitWidth)
      let daySpan := (jsRoundN (jsDivN width unitWidth)).map (max 1)
      let baseDate := startDate / 86400000 * 86400000
      let newStartDate := daysFromStart.map (fun k => (baseDate + k * 86400000) / 86400000 * 86400000)
      let newEndDate := newStartDate.bind (fun ns =>
        daySpan.map (fun sp => (ns + (sp - 1) * 86400000) / 86400000 * 86400000 + 86399999))
      (newStartDate, newEndDate)
  | .week =>
      let pixelsPerDay := unitWidth / 7
      let daysFromStartWeek := jsRoundN (jsDivN left pixelsPerDay)
      let daySpanWeek := (jsRoundN (jsDivN width pixelsPerDay)).map (max 1)
      let baseDateWeek := startDate / 86400000 * 86400000
      let newStartDate := daysFromStartWeek.map (fun k =>
        (baseDateWeek + k * 86400000) / 86400000 * 86400000)
      let newEndDate := newStartDate.bind (fun ns =>
        daySpanWeek.map (fun sp => (ns + (sp - 1) * 86400000) / 86400000 * 86400000 + 86399999))
      (newStartDate, newEndDate)
  | _ =>
      let startOffset := safeLeft * msPerPixel
      let durationMs := safeWidth * msPerPixel
      let rawStart := ratTrunc ((startDate : Int) + startOffset)
      let rawEnd := ratTrunc ((startDate : Int) + startOffset + durationMs)
      (some (rawStart / 86400000 * 86400000), some (rawEnd / 86400000 * 86400000 + 86399999))

/-- The terminal clamp of `calculateDatesFromPosition` (source lines 138-145).
JavaScript relational comparison against an invalid date is `false`, so an
invalid (`none`) date passes through unclamped. -/
def clampToWindow (startDate endDate : Int) (dates : Option Int × Option Int) :
    Option Int × Option Int :=
  let newStartDate := match dates.1 with
    | none => none
    | some t => if t < startDate then some startDate else some t
  let newEndDate := match dates.2 with
    | none => none
    | some t => if endDate < t then some endDate else some t
  (newStartDate, newEndDate)

/-- `TaskService.calculateDatesFromPosition`: pixel interval to date interval. -/
def calculateDatesFromPosition (left width : JsNum) (startDate endDate : Int)
    (totalUnits unitWidth : ℚ) (viewMode : ViewMode) : Option Int × Option Int :=
  clampToWindow startDate endDate
    (snappedDates left width startDate endDate totalUnits unitWidth viewMode)

/-- Window-precision normalisation of `calculateTaskPixelPosition` (source
lines 200-265): identity for `MINUTE`, hour boundaries for `HOUR`, day
boundaries for `DAY`/`WEEK`, raw times otherwise. -/
def normalizeWindow (viewMode : ViewMode) (startDate endDate : Int) : Int × Int :=
  match viewMode with
  | .minute => (startDate, endDate)
  | .hour =>
      (mkTime (getFullYear startDate) (getMonth startDate) (getDate startDate)
         (getHours startDate) 0 0 0,
       mkTime (getFullYear endDate) (getMonth endDate) (getDate endDate)
         (getHours endDate) 59 59 999)
  | .day | .week =>
      (mkTime (getFullYear startDate) (getMonth startDate) (getDate startDate) 0 0 0 0,
       mkTime (getFullYear endDate) (getMonth endDate) (getDate endDate) 23 59 59 999)
  | _ => (startDate, endDate)

/-- Task-time normalisation of `calculateTaskPixelPosition` (source lines
267-291): day boundaries for `DAY`/`WEEK`, identity otherwise. -/
def normalizeTask (viewMode : ViewMode) (taskStartTime taskEndTime : Int) : Int × Int :=
  match viewMode with
  | .day | .week =>
      (mkTime (getFullYear taskStartTime) (getMonth taskStartTime) (getDate taskStartTime) 0 0 0 0,
       mkTime (getFullYear taskEndTime) (getMonth taskEndTime) (getDate taskEndTime) 23 59 59 999)
  | _ => (taskStartTime, taskEndTime)

/-- Effective timeline duration of `calculateTaskPixelPosition` (source lines
294-307), computed from the normalised window times. -/
def totalTimelineRange (timelineStartTime timelineEndTime : Int) (totalUnits : ℚ)
    (viewMode : ViewMode) : ℚ :=
  match viewMode with
  | .week => totalUnits * 7 * 24 * 60 * 60 * 1000
  | .day => totalUnits * 24 * 60 * 60 * 1000
  | .hour => totalUnits * 60 * 60 * 1000
  | .minute => totalUnits * 60 * 1000
  | _ => ((timelineEndTime - timelineStartTime : Int) : ℚ)

/-- The per-view-mode minimum bar width table (source lines 349-357). -/
def minWidthByViewMode : ViewMode → ℚ
  | .minute => 10
  | .hour => 15
  | .day => 20
  | .week => 20
  | .month => 20
  | .quarter => 30
  | .year => 40

/-- `TaskService.calculateTaskPixelPosition`: date interval to pixel interval
(for tasks whose dates are valid `Date`s, so the `throw`/fallback path is
not taken). -/
def calculateTaskPixelPosition (taskStartDate taskEndDate startDate endDate : Int)
    (totalUnits unitWidth : ℚ) (viewMode : ViewMode) : ℚ × ℚ :=
  let taskStartTime := max taskStartDate startDate
  let taskEndTime := min taskEndDate endDate
  let tl := normalizeWindow viewMode startDate endDate
  let tt := normalizeTask viewMode taskStartTime taskEndTime
  let range := totalTimelineRange tl.1 tl.2 totalUnits viewMode
  let leftPercent : ℚ := ((tt.1 - tl.1 : Int) : ℚ) / range
  let widthPercent : ℚ := ((tt.2 - tt.1 : Int) : ℚ) / range
  let totalPixelWidth := totalUnits * unitWidth
  let leftPx0 := leftPercent * totalPixelWidth
  let widthPx0 := widthPercent * totalPixelWidth
  let adj : ℚ × ℚ :=
    match viewMode with
    | .minute => ((jsRound leftPx0 : Int), max 10 ((jsRound widthPx0 : Int) : ℚ))
    | .hour => ((jsRound leftPx0 : Int), max 15 ((jsRound widthPx0 : Int) : ℚ))
    | .day =>
        (((jsRound (leftPx0 / unitWidth) : Int) : ℚ) * unitWidth,
         max unitWidth (((jsRound (widthPx0 / unitWidth) : Int) : ℚ) * unitWidth))
    | .week =>
        let pixelsPerDay := unitWidth / 7
        (((jsRound (leftPx0 / pixelsPerDay) : Int) : ℚ) * pixelsPerDay,
         max pixelsPerDay (((jsRound (widthPx0 / pixelsPerDay) : Int) : ℚ) * pixelsPerDay))
    | _ => (leftPx0, widthPx0)
  let widthPx1 := max (minWidthByViewMode viewMode) adj.2
  let maxWidth := totalPixelWidth - adj.1
  (adj.1, min maxWidth widthPx1)

/-- `date-fns` `isWithinInterval` for a valid interval: `start ≤ d ≤ end`. -/
def isWithinInterval (d start finish : Int) : Bool :=
  decide (start ≤ d) && decide (d ≤ finish)

/-- `TaskService.datesOverlap` (source lines 414-426). -/
def datesOverlap (startA endA startB endB : Int) : Bool :=
  isWithinInterval startA startB endB || isWithinInterval endA startB endB ||
  isWithinInterval startB startA endA || isWithinInterval endB startA endA

end TaskService

namespace Timeline

/-- One emitted group of the hierarchical header: representative instant and
the number of primitive units it covers (fractional for clamped month
blocks in `DAY`/`WEEK` view). -/
structure HeaderUnit where
  date : Int
  span : ℚ
deriving DecidableEq, Repr

/-- The `MINUTE`-view walk of `getHigherLevelUnits`: run-length grouping of
the unit instants by (hour, day-of-month, month, year), flushing the final
open group.  `currentHour` is the hour-start key of the open group. -/
def minuteGroups : List Int → Int → ℚ → List HeaderUnit
  | [], currentHour, currentSpan =>
      if 0 < currentSpan then [⟨currentHour, currentSpan⟩] else []
  | date :: rest, currentHour, currentSpan =>
      if getHours date == getHours currentHour && getDate date == getDate currentHour &&
         getMonth date == getMonth currentHour && getFullYear date == getFullYear currentHour then
        minuteGroups rest currentHour (currentSpan + 1)
      else
        ⟨currentHour, currentSpan⟩ :: minuteGroups rest (date / 3600000 * 3600000) 1

/-- The `HOUR`-view walk of `getHigherLevelUnits`: run-length grouping by
(day-of-month, month, year).  `currentDay` is the day-start key of the open
group. -/
def hourGroups : List Int → Int → ℚ → List HeaderUnit
  | [], currentDay, currentSpan =>
      if 0 < currentSpan then [⟨currentDay, currentSpan⟩] else []
  | date :: rest, currentDay, currentSpan =>
      if getDate date == getDate currentDay && getMonth date == getMonth currentDay &&
         getFullYear date == getFullYear currentDay then
        hourGroups rest currentDay (currentSpan + 1)
      else
        ⟨currentDay, currentSpan⟩ :: hourGroups rest (date / 86400000 * 86400000) 1

/-- The `DAY`/`WEEK` month-walk of `getHigherLevelUnits` (source lines
158-195).  The source iterates `iterDate` over month starts with a `while`
loop; the walk is embedded with explicit fuel (the caller passes an upper
bound on the number of months crossed, which the termination argument
proves sufficient). -/
def monthBlocks (startDate endDate oneUnitMs : Int) : Nat → Int → List HeaderUnit
  | 0, _ => []
  | fuel + 1, iterDate =>
      if iterDate < endDate then
        let currentMonthStart := mkTime (getFullYear iterDate) (getMonth iterDate) 1 0 0 0 0
        let nextMonthStart := mkTime (getFullYear iterDate) (getMonth iterDate + 1) 1 0 0 0 0
        let blockStart :=
          if iterDate < startDate then startDate
          else if currentMonthStart < iterDate then iterDate
          else currentMonthStart
        let blockEnd := if endDate < nextMonthStart then endDate else nextMonthStart
        (if blockStart < blockEnd then
            [⟨blockStart, ((blockEnd - blockStart : Int) : ℚ) / (oneUnitMs : ℚ)⟩]
          else []) ++ monthBlocks startDate endDate oneUnitMs fuel nextMonthStart
      else []

/-- `getHigherLevelUnits` of the `Timeline` component: groups the primitive
unit instants into the higher-level header row. -/
def getHigherLevelUnits (months : List Int) (viewMode : ViewMode) : List HeaderUnit :=
  match months with
  | [] => []
  | m0 :: rest =>
    match viewMode with
    | .minute => minuteGroups (m0 :: rest) (m0 / 3600000 * 3600000) 0
    | .hour => hourGroups (m0 :: rest) (m0 / 86400000 * 86400000) 0
    | .day | .week =>
        if (m0 :: rest).length < 2 ∧ viewMode ≠ .week then []
        else
          let startDate := m0
          let lastUnit := (m0 :: rest).getLast (List.cons_ne_nil m0 rest)
          let unitDuration : Int := if viewMode = .week then 7 else 1
          let endDate := lastUnit + unitDuration * 86400000
          monthBlocks startDate endDate (unitDuration * 86400000)
            (monthOfDay (dayNumber endDate) - monthOfDay (dayNumber startDate) + 2).toNat
            startDate
    | _ => []

end Timeline

namespace TodayMarker

/-- `calculateMarkerPosition` of the `TodayMarker` component.  `today` is
`currentDate || new Date()` (a `Date` object is always truthy, so the
fallback fires only when the prop is absent); `currentDay` is
`dayOfMonth || today.getDate()` (`0` is falsy). -/
def calculateMarkerPosition (currentMonthIndex : Int) (dayOfMonth : Option Int)
    (viewMode : ViewMode) (unitWidth : ℚ) (startDate : Option Int)
    (currentDate : Option Int) (now : Int) : ℚ :=
  let today := currentDate.getD now
  let currentDay := match dayOfMonth with
    | none => getDate today
    | some d => if d = 0 then getDate today else d
  let fallback : ℚ :=
    match viewMode with
    | .minute =>
        let minutePosition := ((getMinutes today : ℚ) + (getSeconds today : ℚ) / 60) / 60
        (currentMonthIndex : ℚ) * unitWidth + unitWidth * minutePosition
    | .hour =>
        let hourPosition := (getMinutes today : ℚ) / 60
        (currentMonthIndex : ℚ) * unitWidth + unitWidth * hourPosition
    | .day => (currentMonthIndex : ℚ) * unitWidth + unitWidth / 2
    | .week =>
        let normalizedDayOfWeek := (getDay today + 7) % 7
        let dayPosition := (normalizedDayOfWeek : ℚ) / 6
        (currentMonthIndex : ℚ) * unitWidth + unitWidth * dayPosition
    | .month =>
        let daysInMonth := getDate (mkTime (getFullYear today) (getMonth today + 1) 0 0 0 0 0)
        let dayPercentage := ((currentDay - 1 : Int) : ℚ) / (daysInMonth : ℚ)
        (currentMonthIndex : ℚ) * unitWidth + unitWidth * dayPercentage
    | .quarter =>
        let monthOfQuarter := getMonth today % 3
        let monthPosition := (monthOfQuarter : ℚ) / 3
        (currentMonthIndex : ℚ) * unitWidth + unitWidth * monthPosition
    | .year =>
        let monthOfYear := getMonth today
        let yearMonthPosition := (monthOfYear : ℚ) / 12
        (currentMonthIndex : ℚ) * unitWidth + unitWidth * yearMonthPosition
  match startDate with
  | some sd =>
      if viewMode = .week ∨ viewMode = .day ∨ viewMode = .hour ∨ viewMode = .minute then
        let durationInMs : Int :=
          match viewMode with
          | .minute => 60 * 1000
          | .hour => 60 * 60 * 1000
          | .day => 24 * 60 * 60 * 1000
          | .week => 7 * 24 * 60 * 60 * 1000
          | _ => 0
        if 0 < durationInMs then ((today - sd : Int) : ℚ) / (durationInMs : ℚ) * unitWidth
        else fallback
      else fallback
  | none => fallback

/-- The `TodayMarker` component: a negative reference index suppresses the
marker entirely (the component returns `null` before computing a position). -/
def todayMarkerOffset (currentMonthIndex : Int) (dayOfMonth : Option Int)
    (viewMode : ViewMode) (unitWidth : ℚ) (startDate : Option Int)
    (currentDate : Option Int) (now : Int) : Option ℚ :=
  if currentMonthIndex < 0 then none
  else some (calculateMarkerPosition currentMonthIndex dayOfMonth viewMode unitWidth
    startDate currentDate now)

end TodayMarker

/-! ## Calendar lemmas -/

theorem mlen_lb (k : Int) : 28 ≤ mlen k := by
  unfold mlen monthLen
  split
  · split <;> omega
  · split <;> omega

theorem msd_succ (k : Int) : msd (k + 1) = msd k + mlen k := by
  unfold msd
  rcases le_or_lt 0 k with hk | hk
  · rw [if_pos (by omega), if_pos hk]
    have h1 : (k + 1).toNat = k.toNat + 1 := by omega
    rw [h1]
    show msdUp k.toNat + mlen k.toNat = msdUp k.toNat + mlen k
    have h2 : ((k.toNat : Int)) = k := by omega
    rw [h2]
  · rcases eq_or_lt_of_le (by omega : k + 1 ≤ 0) with hk1 | hk1
    · have hk2 : k = -1 := by omega
      subst hk2
      show msd 0 = msd (-1) + mlen (-1)
      have h0 : msd 0 = 0 := rfl
      have h1 : msd (-1) = -(msdDn 0 + mlen (-((0 : Nat) + 1 : Nat))) := rfl
      rw [h0, h1]
      show (0 : Int) = -(0 + mlen (-(1 : Nat))) + mlen (-1)
      norm_num
    · rw [if_neg (by omega), if_neg (by omega)]
      have h1 : (-k).toNat = (-(k + 1)).toNat + 1 := by omega
      rw [h1]
      show -msdDn (-(k + 1)).toNat = -(msdDn (-(k + 1)).toNat + mlen (-((-(k + 1)).toNat + 1 : Nat))) + mlen k
      have h2 : (-(((-(k + 1)).toNat : Int) + 1)) = k := by omega
      have h3 : ((((-(k + 1)).toNat + 1 : Nat) : Int)) = ((-(k + 1)).toNat : Int) + 1 := by omega
      rw [h3, h2]
      ring

theorem msd_le_msd {j k : Int} (h : j ≤ k) : msd j ≤ msd k := by
  have key : ∀ (n : Nat) (i : Int), msd i ≤ msd (i + n) := by
    intro n
    induction n with
    | zero => intro i; simp
    | succ m ih =>
        intro i
        have h1 := ih i
        have h2 := msd_succ (i + m)
        have h3 := mlen_lb (i + m)
        have h4 : i + ((m + 1 : Nat) : Int) = (i + m) + 1 := by push_cast; ring
        rw [h4]
        omega
  obtain ⟨n, hn⟩ : ∃ n : Nat, k = j + n := ⟨(k - j).toNat, by omega⟩
  subst hn
  exact key _ j

theorem msdUp_lb (n : Nat) : 28 * (n : Int) ≤ msdUp n := by
  induction n with
  | zero => simp [msdUp]
  | succ m ih =>
      have := mlen_lb (m : Int)
      show 28 * ((m + 1 : Nat) : Int) ≤ msdUp m + mlen m
      push_cast
      omega

theorem msdDn_lb (n : Nat) : 28 * (n : Int) ≤ msdDn n := by
  induction n with
  | zero => simp [msdDn]
  | succ m ih =>
      have := mlen_lb (-((m + 1 : Nat) : Int))
      show 28 * ((m + 1 : Nat) : Int) ≤ msdDn m + mlen (-((m + 1 : Nat) : Int))
      push_cast at this ⊢
      omega

theorem upSearch_bracket (d : Int) : ∀ (fuel : Nat) (k : Int),
    msd k ≤ d → d < msd (k + fuel) →
    msd (upSearch d fuel k) ≤ d ∧ d < msd (upSearch d fuel k + 1) := by
  intro fuel
  induction fuel with
  | zero =>
      intro k h1 h2
      rw [show k + ((0 : Nat) : Int) = k by omega] at h2
      omega
  | succ f ih =>
      intro k h1 h2
      show msd (if msd (k + 1) ≤ d then upSearch d f (k + 1) else k) ≤ d ∧
        d < msd ((if msd (k + 1) ≤ d then upSearch d f (k + 1) else k) + 1)
      split
      next hc =>
        apply ih (k + 1) hc
        rw [show (k + 1) + (f : Int) = k + ((f + 1 : Nat) : Int) by push_cast; ring]
        exact h2
      next hc => exact ⟨h1, not_le.mp hc⟩

theorem dnSearch_bracket (d : Int) : ∀ (fuel : Nat) (k : Int),
    d < msd (k + 1) → msd (k - fuel) ≤ d →
    msd (dnSearch d fuel k) ≤ d ∧ d < msd (dnSearch d fuel k + 1) := by
  intro fuel
  induction fuel with
  | zero =>
      intro k h1 h2
      rw [show k - ((0 : Nat) : Int) = k by omega] at h2
      exact ⟨h2, h1⟩
  | succ f ih =>
      intro k h1 h2
      show msd (if d < msd k then dnSearch d f (k - 1) else k) ≤ d ∧
        d < msd ((if d < msd k then dnSearch d f (k - 1) else k) + 1)
      split
      next hc =>
        apply ih (k - 1)
        · rw [show (k - 1) + 1 = k by ring]
          exact hc
        · rw [show (k - 1) - (f : Int) = k - ((f + 1 : Nat) : Int) by push_cast; ring]
          exact h2
      next hc => exact ⟨not_lt.mp hc, h1⟩

/-- The month search brackets its input day: `monthOfDay d` is the month
whose first day is at or before `d` and whose successor starts after `d`. -/
theorem monthOfDay_bracket (d : Int) :
    msd (monthOfDay d) ≤ d ∧ d < msd (monthOfDay d + 1) := by
  unfold monthOfDay
  rcases le_or_lt 0 d with hd | hd
  · rw [if_pos hd]
    apply upSearch_bracket d (d.toNat + 1) 0
    · show msd 0 ≤ d
      rw [show msd 0 = 0 from rfl]
      exact hd
    · have h1 : msd (0 + ((d.toNat + 1 : Nat) : Int)) = msdUp (d.toNat + 1) := by
        unfold msd
        rw [if_pos (by omega)]
        congr 1
        omega
      have h2 := msdUp_lb (d.toNat + 1)
      rw [h1]
      push_cast at h2
      omega
  · rw [if_neg (not_le.mpr hd)]
    apply dnSearch_bracket d d.natAbs 0
    · show d < msd (0 + 1)
      rw [show msd (0 + 1) = 31 from rfl]
      omega
    · have h1 : msd (0 - (d.natAbs : Int)) = -msdDn d.natAbs := by
        rcases Nat.eq_zero_or_pos d.natAbs with h0 | h0
        · omega
        · unfold msd
          rw [if_neg (by omega)]
          congr 2
          omega
      have h2 := msdDn_lb d.natAbs
      rw [h1]
      omega

/-- Uniqueness of the bracketing month. -/
theorem monthOfDay_unique {d k : Int} (h1 : msd k ≤ d) (h2 : d < msd (k + 1)) :
    monthOfDay d = k := by
  have hb := monthOfDay_bracket d
  by_contra hne
  rcases lt_or_gt_of_ne hne with hlt | hgt
  · have := msd_le_msd (by omega : monthOfDay d + 1 ≤ k)
    omega
  · have := msd_le_msd (by omega : k + 1 ≤ monthOfDay d)
    omega

theorem monthOfDay_msd (k : Int) : monthOfDay (msd k) = k :=
  monthOfDay_unique (le_refl _) (by have := msd_succ k; have := mlen_lb k; omega)

/-- Recomposition: building a date from the calendar fields of `t` recovers
the day number of `t`. -/
theorem mkTime_fields (t h mi s ms : Int) :
    mkTime (getFullYear t) (getMonth t) (getDate t) h mi s ms
      = dayNumber t * 86400000 + h * 3600000 + mi * 60000 + s * 1000 + ms := by
  unfold mkTime mkDay getFullYear getMonth getDate
  have h1 : 12 * (1970 + monthOfDay (dayNumber t) / 12 - 1970) + monthOfDay (dayNumber t) % 12
      = monthOfDay (dayNumber t) := by omega
  rw [h1]
  ring_nf

/-- The `new Date(y, m, 1)` value built from the fields of `t` is the start
of the month containing `t`, and it is at or before `t`. -/
theorem currentMonthStart_eq (t : Int) :
    mkTime (getFullYear t) (getMonth t) 1 0 0 0 0
      = msd (monthOfDay (dayNumber t)) * 86400000 := by
  unfold mkTime mkDay getFullYear getMonth
  have h1 : 12 * (1970 + monthOfDay (dayNumber t) / 12 - 1970) + monthOfDay (dayNumber t) % 12
      = monthOfDay (dayNumber t) := by omega
  rw [h1]
  ring

/-- The `new Date(y, m + 1, 1)` value built from the fields of `t` is the
start of the month after the month containing `t`. -/
theorem nextMonthStart_eq (t : Int) :
    mkTime (getFullYear t) (getMonth t + 1) 1 0 0 0 0
      = msd (monthOfDay (dayNumber t) + 1) * 86400000 := by
  unfold mkTime mkDay getFullYear getMonth
  have h1 : 12 * (1970 + monthOfDay (dayNumber t) / 12 - 1970) + (monthOfDay (dayNumber t) % 12 + 1)
      = monthOfDay (dayNumber t) + 1 := by omega
  rw [h1]
  ring

/-- In milliseconds: the month start is at or before `t`, and the next month
start is strictly after `t`. -/
theorem monthStart_ms_bracket (t : Int) :
    msd (monthOfDay (dayNumber t)) * 86400000 ≤ t ∧
    t < msd (monthOfDay (dayNumber t) + 1) * 86400000 := by
  have hb := monthOfDay_bracket (dayNumber t)
  unfold dayNumber at hb ⊢
  omega

/-! ## Header grouping lemmas -/

namespace Timeline

/-- The blocks `l` tile the span from `a` to `b` with no gaps or overlaps:
each block starts exactly where the previous one ended, spans being measured
in units of `u` milliseconds. -/
def tilesFrom (u : Int) : List HeaderUnit → ℚ → ℚ → Prop
  | [], a, b => a = b
  | g :: rest, a, b => (g.date : ℚ) = a ∧ tilesFrom u rest (a + g.span * u) b

/-- A tiling of `a`..`b` has total span `(b - a) / u`. -/
theorem tilesFrom_sum (u : Int) :
    ∀ (l : List HeaderUnit) (a b : ℚ), tilesFrom u l a b →
      ((l.map HeaderUnit.span).sum) * u = b - a := by
  intro l
  induction l with
  | nil =>
      intro a b h
      simp only [tilesFrom] at h
      simp only [List.map_nil, List.sum_nil, zero_mul]
      rw [h]
      ring
  | cons g rest ih =>
      intro a b h
      obtain ⟨h1, h2⟩ := h
      have := ih (a + g.span * u) b h2
      simp only [List.map_cons, List.sum_cons]
      linarith

/-- A tiling with positive spans and positive unit has strictly increasing
block dates, all at or after `a`. -/
theorem tilesFrom_chain (u : Int) (hu : 0 < u) :
    ∀ (l : List HeaderUnit) (a b : ℚ), tilesFrom u l a b →
      (∀ g ∈ l, 0 < g.span) →
      List.Chain' (fun g1 g2 => g1.date < g2.date) l ∧ ∀ g ∈ l, a ≤ (g.date : ℚ) := by
  intro l
  induction l with
  | nil => intro a b _ _; exact ⟨List.chain'_nil, by simp⟩
  | cons g rest ih =>
      intro a b h hpos
      obtain ⟨h1, h2⟩ := h
      have hsp : 0 < g.span := hpos g (List.mem_cons_self g rest)
      have hstep : a < a + g.span * u := by
        have : (0 : ℚ) < g.span * u := by positivity
        linarith
      obtain ⟨ihchain, ihge⟩ := ih (a + g.span * u) b h2
        (fun x hx => hpos x (List.mem_cons_of_mem g hx))
      constructor
      · rw [List.chain'_cons']
        refine ⟨?_, ihchain⟩
        intro y hy
        have hmem : y ∈ rest := by
          cases rest with
          | nil => simp at hy
          | cons r rs =>
              simp only [List.head?_cons, Option.mem_def, Option.some.injEq] at hy
              rw [← hy]
              exact List.mem_cons_self r rs
        have := ihge y hmem
        have : (g.date : ℚ) < (y.date : ℚ) := by
          rw [h1]
          linarith
        exact_mod_cast this
      · intro x hx
        rcases List.mem_cons.mp hx with hx1 | hx2
        · rw [hx1, h1]
        · have := ihge x hx2
          linarith

/-- The month walk emits nothing once the iterator is at or past the end. -/
theorem monthBlocks_nil (startDate endDate oneUnitMs : Int) (fuel : Nat) (iter : Int)
    (h : endDate ≤ iter) : monthBlocks startDate endDate oneUnitMs fuel iter = [] := by
  cases fuel with
  | zero => rfl
  | succ f =>
      unfold monthBlocks
      rw [if_neg (not_lt.mpr h)]

/-- Monotonicity of the month index over day numbers. -/
theorem monthOfDay_mono {a b : Int} (h : a ≤ b) : monthOfDay a ≤ monthOfDay b := by
  by_contra hc
  have h1 := monthOfDay_bracket a
  have h2 := monthOfDay_bracket b
  have := msd_le_msd (by omega : monthOfDay b + 1 ≤ monthOfDay a)
  omega

/-- Each step of the month walk advances the month index by exactly one. -/
theorem monthOfDay_nextMonthStart (t : Int) :
    monthOfDay (dayNumber (mkTime (getFullYear t) (getMonth t + 1) 1 0 0 0 0))
      = monthOfDay (dayNumber t) + 1 := by
  rw [nextMonthStart_eq]
  have hd : dayNumber (msd (monthOfDay (dayNumber t) + 1) * 86400000)
      = msd (monthOfDay (dayNumber t) + 1) := by
    unfold dayNumber
    omega
  rw [hd, monthOfDay_msd]

/-- Core correctness of the `DAY`/`WEEK` month walk: given enough fuel it
tiles the span from the iterator to the end date. -/
theorem monthBlocks_tiles (startDate endDate oneUnitMs : Int) (hu : 0 < oneUnitMs) :
    ∀ (fuel : Nat) (iter : Int),
      startDate ≤ iter → iter ≤ endDate →
      monthOfDay (dayNumber endDate) - monthOfDay (dayNumber iter) < fuel →
      tilesFrom oneUnitMs (monthBlocks startDate endDate oneUnitMs fuel iter)
        (iter : ℚ) (endDate : ℚ) := by
  intro fuel
  induction fuel with
  | zero =>
      intro iter h1 h2 h3
      have := monthOfDay_mono (by unfold dayNumber; omega : dayNumber iter ≤ dayNumber endDate)
      omega
  | succ f ih =>
      intro iter h1 h2 h3
      rcases eq_or_lt_of_le h2 with heq | hlt
      · rw [heq, monthBlocks_nil startDate endDate oneUnitMs (f + 1) endDate (le_refl _)]
        exact rfl
      · unfold monthBlocks
        rw [if_pos hlt]
        dsimp only
        have hbr := monthStart_ms_bracket iter
        have hbs : (if iter < startDate then startDate
            else if mkTime (getFullYear iter) (getMonth iter) 1 0 0 0 0 < iter then iter
            else mkTime (getFullYear iter) (getMonth iter) 1 0 0 0 0) = iter := by
          rw [if_neg (not_lt.mpr h1), currentMonthStart_eq]
          split
          · rfl
          next hc => omega
        rw [hbs, nextMonthStart_eq]
        set nms := msd (monthOfDay (dayNumber iter) + 1) * 86400000 with hnms
        have hiter_lt_nms : iter < nms := hbr.2
        have hnext_idx : monthOfDay (dayNumber nms) = monthOfDay (dayNumber iter) + 1 := by
          have hd : dayNumber nms = msd (monthOfDay (dayNumber iter) + 1) := by
            rw [hnms]
            show msd (monthOfDay (dayNumber iter) + 1) * 86400000 / 86400000 = _
            omega
          rw [hd, monthOfDay_msd]
        have hu' : ((oneUnitMs : Int) : ℚ) ≠ 0 := by
          exact_mod_cast hu.ne'
        rcases le_or_lt nms endDate with hcase | hcase
        · rw [if_neg (not_lt.mpr hcase), if_pos hiter_lt_nms, List.singleton_append]
          refine ⟨rfl, ?_⟩
          have hbase : (iter : ℚ) + ((nms - iter : Int) : ℚ) / (oneUnitMs : ℚ) * (oneUnitMs : ℚ)
              = (nms : ℚ) := by
            rw [div_mul_cancel₀ _ hu']
            push_cast
            ring
          rw [hbase]
          exact ih nms (le_trans h1 hiter_lt_nms.le) hcase (by omega)
        · rw [if_pos hcase, if_pos hlt,
            monthBlocks_nil startDate endDate oneUnitMs f nms hcase.le,
            List.singleton_append]
          refine ⟨rfl, ?_⟩
          show (iter : ℚ) + ((endDate - iter : Int) : ℚ) / (oneUnitMs : ℚ) * (oneUnitMs : ℚ)
              = (endDate : ℚ)
          rw [div_mul_cancel₀ _ hu']
          push_cast
          ring

/-- Membership in an optional singleton prepended to a list. -/
theorem mem_ite_singleton_append {α : Type} {c : Prop} [Decidable c] {x g : α} {l : List α}
    (h : g ∈ (if c then [x] else []) ++ l) : (c ∧ g = x) ∨ g ∈ l := by
  rw [List.mem_append] at h
  rcases h with h | h
  · by_cases hc : c
    · rw [if_pos hc] at h
      simp only [List.mem_singleton] at h
      exact Or.inl ⟨hc, h⟩
    · rw [if_neg hc] at h
      simp at h
  · exact Or.inr h

/-- Every block pushed by the month walk has a positive span (a block is
pushed only when its clamped start strictly precedes its clamped end). -/
theorem monthBlocks_spans_pos (startDate endDate oneUnitMs : Int) (hu : 0 < oneUnitMs) :
    ∀ (fuel : Nat) (iter : Int), ∀ g ∈ monthBlocks startDate endDate oneUnitMs fuel iter,
      0 < g.span := by
  intro fuel
  induction fuel with
  | zero =>
      intro iter g hg
      simp [monthBlocks] at hg
  | succ f ih =>
      intro iter g hg
      unfold monthBlocks at hg
      by_cases hc : iter < endDate
      · rw [if_pos hc] at hg
        dsimp only at hg
        rcases mem_ite_singleton_append hg with ⟨hbe, hgeq⟩ | hg2
        · rw [hgeq]
          show (0 : ℚ) < ((_ - _ : Int) : ℚ) / ((oneUnitMs : Int) : ℚ)
          apply div_pos
          · exact_mod_cast (by omega : (0 : Int) < _ - _)
          · exact_mod_cast hu
        · exact ih _ g hg2
      · rw [if_neg hc] at hg
        simp at hg

/-- The (hour, day-of-month, month, year) fields of `d` match those of an
hour-aligned group key `ch` iff `d` lies in the hour starting at `ch`. -/
theorem hour_key_match_iff (d ch : Int) (hch : ch / 3600000 * 3600000 = ch) :
    ((getHours d == getHours ch && getDate d == getDate ch && getMonth d == getMonth ch &&
      getFullYear d == getFullYear ch) = true)
      ↔ d / 3600000 * 3600000 = ch := by
  simp only [Bool.and_eq_true, beq_iff_eq]
  constructor
  · rintro ⟨⟨⟨hh, hdt⟩, hm⟩, hy⟩
    have h1 := mkTime_fields d 0 0 0 0
    have h2 := mkTime_fields ch 0 0 0 0
    rw [hdt, hm, hy] at h1
    unfold getHours at hh
    unfold dayNumber at h1 h2
    omega
  · intro heq
    have hday : dayNumber d = dayNumber ch := by
      unfold dayNumber
      omega
    refine ⟨⟨⟨?_, ?_⟩, ?_⟩, ?_⟩
    · unfold getHours
      omega
    · unfold getDate
      rw [hday]
    · unfold getMonth
      rw [hday]
    · unfold getFullYear
      rw [hday]

/-- The (day-of-month, month, year) fields of `d` match those of a
day-aligned group key `ch` iff `d` lies in the day starting at `ch`. -/
theorem day_key_match_iff (d ch : Int) (hch : ch / 86400000 * 86400000 = ch) :
    ((getDate d == getDate ch && getMonth d == getMonth ch &&
      getFullYear d == getFullYear ch) = true)
      ↔ d / 86400000 * 86400000 = ch := by
  simp only [Bool.and_eq_true, beq_iff_eq]
  constructor
  · rintro ⟨⟨hdt, hm⟩, hy⟩
    have h1 := mkTime_fields d 0 0 0 0
    have h2 := mkTime_fields ch 0 0 0 0
    rw [hdt, hm, hy] at h1
    unfold dayNumber at h1 h2
    omega
  · intro heq
    have hday : dayNumber d = dayNumber ch := by
      unfold dayNumber
      omega
    refine ⟨⟨?_, ?_⟩, ?_⟩
    · unfold getDate
      rw [hday]
    · unfold getMonth
      rw [hday]
    · unfold getFullYear
      rw [hday]

/-- Every primitive unit contributes exactly one to the emitted spans of the
`MINUTE`-view grouping. -/
theorem minuteGroups_sum : ∀ (months : List Int) (ch : Int) (cs : ℚ), 0 ≤ cs →
    ((minuteGroups months ch cs).map HeaderUnit.span).sum = cs + months.length := by
  intro months
  induction months with
  | nil =>
      intro ch cs hcs
      unfold minuteGroups
      split
      · simp
      next hc =>
        have hcs0 : cs = 0 := le_antisymm (not_lt.mp hc) hcs
        simp [hcs0]
  | cons d rest ih =>
      intro ch cs hcs
      unfold minuteGroups
      split
      · rw [ih ch (cs + 1) (by linarith)]
        simp only [List.length_cons]
        push_cast
        ring
      · simp only [List.map_cons, List.sum_cons, List.length_cons]
        rw [ih _ 1 (by norm_num)]
        push_cast
        ring

/-- Every primitive unit contributes exactly one to the emitted spans of the
`HOUR`-view grouping. -/
theorem hourGroups_sum : ∀ (months : List Int) (ch : Int) (cs : ℚ), 0 ≤ cs →
    ((hourGroups months ch cs).map HeaderUnit.span).sum = cs + months.length := by
  intro months
  induction months with
  | nil =>
      intro ch cs hcs
      unfold hourGroups
      split
      · simp
      next hc =>
        have hcs0 : cs = 0 := le_antisymm (not_lt.mp hc) hcs
        simp [hcs0]
  | cons d rest ih =>
      intro ch cs hcs
      unfold hourGroups
      split
      · rw [ih ch (cs + 1) (by linarith)]
        simp only [List.length_cons]
        push_cast
        ring
      · simp only [List.map_cons, List.sum_cons, List.length_cons]
        rw [ih _ 1 (by norm_num)]
        push_cast
        ring

/-- Invariants of the `MINUTE`-view walk on a strictly ascending input: all
spans positive, group dates strictly increasing, all dates at or after the
open group key. -/
theorem minuteGroups_invariants :
    ∀ (months : List Int) (ch : Int) (cs : ℚ) (prev : Int),
      0 < cs → ch = prev / 3600000 * 3600000 →
      List.Chain' (fun a b => a < b) (prev :: months) →
      (∀ g ∈ minuteGroups months ch cs, 0 < g.span) ∧
      List.Chain' (fun g1 g2 => g1.date < g2.date) (minuteGroups months ch cs) ∧
      ∀ g ∈ minuteGroups months ch cs, ch ≤ g.date := by
  intro months
  induction months with
  | nil =>
      intro ch cs prev hcs hch hchain
      unfold minuteGroups
      rw [if_pos hcs]
      refine ⟨?_, List.chain'_singleton _, ?_⟩
      · intro g hg
        simp only [List.mem_singleton] at hg
        rw [hg]
        exact hcs
      · intro g hg
        simp only [List.mem_singleton] at hg
        simp [hg]
  | cons d rest ih =>
      intro ch cs prev hcs hch hchain
      have hpd : prev < d := (List.chain'_cons.mp hchain).1
      have hchain2 : List.Chain' (fun a b => a < b) (d :: rest) :=
        (List.chain'_cons.mp hchain).2
      have hchalign : ch / 3600000 * 3600000 = ch := by
        rw [hch]
        omega
      unfold minuteGroups
      split
      next hmatch =>
        have hfd : d / 3600000 * 3600000 = ch := (hour_key_match_iff d ch hchalign).mp hmatch
        exact ih ch (cs + 1) d (by linarith) hfd.symm hchain2
      next hmatch =>
        have hfd : ¬ d / 3600000 * 3600000 = ch := fun hcontra =>
          hmatch ((hour_key_match_iff d ch hchalign).mpr hcontra)
        have hmono : prev / 3600000 * 3600000 ≤ d / 3600000 * 3600000 := by omega
        have hlt : ch < d / 3600000 * 3600000 := by omega
        obtain ⟨ihpos, ihchain, ihge⟩ := ih (d / 3600000 * 3600000) 1 d (by norm_num) rfl hchain2
        refine ⟨?_, ?_, ?_⟩
        · intro g hg
          rcases List.mem_cons.mp hg with h1 | h2
          · rw [h1]
            exact hcs
          · exact ihpos g h2
        · rw [List.chain'_cons']
          refine ⟨?_, ihchain⟩
          intro y hy
          have hymem : y ∈ minuteGroups rest (d / 3600000 * 3600000) 1 :=
            List.mem_of_mem_head? hy
          have hyge := ihge y hymem
          show (⟨ch, cs⟩ : HeaderUnit).date < y.date
          dsimp only
          omega
        · intro g hg
          rcases List.mem_cons.mp hg with h1 | h2
          · rw [h1]
          · have := ihge g h2
            omega

/-- Invariants of the `HOUR`-view walk on a strictly ascending input. -/
theorem hourGroups_invariants :
    ∀ (months : List Int) (ch : Int) (cs : ℚ) (prev : Int),
      0 < cs → ch = prev / 86400000 * 86400000 →
      List.Chain' (fun a b => a < b) (prev :: months) →
      (∀ g ∈ hourGroups months ch cs, 0 < g.span) ∧
      List.Chain' (fun g1 g2 => g1.date < g2.date) (hourGroups months ch cs) ∧
      ∀ g ∈ hourGroups months ch cs, ch ≤ g.date := by
  intro months
  induction months with
  | nil =>
      intro ch cs prev hcs hch hchain
      unfold hourGroups
      rw [if_pos hcs]
      refine ⟨?_, List.chain'_singleton _, ?_⟩
      · intro g hg
        simp only [List.mem_singleton] at hg
        rw [hg]
        exact hcs
      · intro g hg
        simp only [List.mem_singleton] at hg
        simp [hg]
  | cons d rest ih =>
      intro ch cs prev hcs hch hchain
      have hpd : prev < d := (List.chain'_cons.mp hchain).1
      have hchain2 : List.Chain' (fun a b => a < b) (d :: rest) :=
        (List.chain'_cons.mp hchain).2
      have hchalign : ch / 86400000 * 86400000 = ch := by
        rw [hch]
        omega
      unfold hourGroups
      split
      next hmatch =>
        have hfd : d / 86400000 * 86400000 = ch := (day_key_match_iff d ch hchalign).mp hmatch
        exact ih ch (cs + 1) d (by linarith) hfd.symm hchain2
      next hmatch =>
        have hfd : ¬ d / 86400000 * 86400000 = ch := fun hcontra =>
          hmatch ((day_key_match_iff d ch hchalign).mpr hcontra)
        have hmono : prev / 86400000 * 86400000 ≤ d / 86400000 * 86400000 := by omega
        have hlt : ch < d / 86400000 * 86400000 := by omega
        obtain ⟨ihpos, ihchain, ihge⟩ := ih (d / 86400000 * 86400000) 1 d (by norm_num) rfl hchain2
        refine ⟨?_, ?_, ?_⟩
        · intro g hg
          rcases List.mem_cons.mp hg with h1 | h2
          · rw [h1]
            exact hcs
          · exact ihpos g h2
        · rw [List.chain'_cons']
          refine ⟨?_, ihchain⟩
          intro y hy
          have hymem : y ∈ hourGroups rest (d / 86400000 * 86400000) 1 :=
            List.mem_of_mem_head? hy
          have hyge := ihge y hymem
          show (⟨ch, cs⟩ : HeaderUnit).date < y.date
          dsimp only
          omega
        · intro g hg
          rcases List.mem_cons.mp hg with h1 | h2
          · rw [h1]
          · have := ihge g h2
            omega

/-- Unfolding of `getHigherLevelUnits` in `WEEK` view. -/
theorem getHigherLevelUnits_week_eq (m0 : Int) (rest : List Int) :
    getHigherLevelUnits (m0 :: rest) .week
      = monthBlocks m0 ((m0 :: rest).getLast (List.cons_ne_nil m0 rest) + 604800000)
          604800000
          (monthOfDay (dayNumber ((m0 :: rest).getLast (List.cons_ne_nil m0 rest) + 604800000))
            - monthOfDay (dayNumber m0) + 2).toNat m0 := by
  simp [getHigherLevelUnits]

/-- Unfolding of `getHigherLevelUnits` in `DAY` view with at least two units. -/
theorem getHigherLevelUnits_day_eq (m0 : Int) (rest : List Int)
    (hlen : 2 ≤ (m0 :: rest).length) :
    getHigherLevelUnits (m0 :: rest) .day
      = monthBlocks m0 ((m0 :: rest).getLast (List.cons_ne_nil m0 rest) + 86400000)
          86400000
          (monthOfDay (dayNumber ((m0 :: rest).getLast (List.cons_ne_nil m0 rest) + 86400000))
            - monthOfDay (dayNumber m0) + 2).toNat m0 := by
  simp only [getHigherLevelUnits]
  rw [if_neg]
  · simp
  · rintro ⟨h1, _⟩
    omega

end Timeline

/-- Claim C6, amended: for a non-empty ordered input sequence the emitted
spans of `getHigherLevelUnits` sum to the number of primitive units in
`MINUTE` and `HOUR` view (every unit is counted once and the final open
group is flushed); in `WEEK` view, and in `DAY` view with at least two
units (a single-unit `DAY` timeline emits no hierarchical header), the
emitted blocks tile the range from the first unit to one unit-duration past
the last unit with no gaps or overlaps, so the spans sum to the elapsed
milliseconds divided by the unit duration: the elapsed-day count for `DAY`,
but the elapsed-*week* count (elapsed days divided by seven) for `WEEK`. -/
theorem header_coverage_amended (months : List Int) (hne : months ≠ [])
    (hsorted : List.Chain' (fun a b : Int => a ≤ b) months) :
    (((Timeline.getHigherLevelUnits months .minute).map Timeline.HeaderUnit.span).sum
        = (months.length : ℚ)) ∧
    (((Timeline.getHigherLevelUnits months .hour).map Timeline.HeaderUnit.span).sum
        = (months.length : ℚ)) ∧
    (Timeline.tilesFrom 604800000 (Timeline.getHigherLevelUnits months .week)
        ((months.head hne : Int) : ℚ)
        ((months.getLast hne + 604800000 : Int) : ℚ) ∧
      ((Timeline.getHigherLevelUnits months .week).map Timeline.HeaderUnit.span).sum
          * ((604800000 : Int) : ℚ)
        = ((months.getLast hne + 604800000 - months.head hne : Int) : ℚ)) ∧
    (2 ≤ months.length →
      Timeline.tilesFrom 86400000 (Timeline.getHigherLevelUnits months .day)
        ((months.head hne : Int) : ℚ)
        ((months.getLast hne + 86400000 : Int) : ℚ) ∧
      ((Timeline.getHigherLevelUnits months .day).map Timeline.HeaderUnit.span).sum
          * ((86400000 : Int) : ℚ)
        = ((months.getLast hne + 86400000 - months.head hne : Int) : ℚ)) := by
  cases months with
  | nil => exact absurd rfl hne
  | cons m0 rest =>
    have hpw : List.Pairwise (fun a b : Int => a ≤ b) (m0 :: rest) :=
      List.chain'_iff_pairwise.mp hsorted
    have hml : m0 ≤ (m0 :: rest).getLast (List.cons_ne_nil m0 rest) := by
      have hmem := List.getLast_mem (List.cons_ne_nil m0 rest)
      rcases List.mem_cons.mp hmem with h1 | h2
      · rw [h1]
      · exact (List.pairwise_cons.mp hpw).1 _ h2
    refine ⟨?_, ?_, ⟨?_, ?_⟩, fun hlen => ⟨?_, ?_⟩⟩
    · show ((Timeline.minuteGroups (m0 :: rest) (m0 / 3600000 * 3600000) 0).map
        Timeline.HeaderUnit.span).sum = _
      rw [Timeline.minuteGroups_sum _ _ 0 le_rfl, zero_add]
    · show ((Timeline.hourGroups (m0 :: rest) (m0 / 86400000 * 86400000) 0).map
        Timeline.HeaderUnit.span).sum = _
      rw [Timeline.hourGroups_sum _ _ 0 le_rfl, zero_add]
    · rw [Timeline.getHigherLevelUnits_week_eq]
      have hend : m0 ≤ (m0 :: rest).getLast (List.cons_ne_nil m0 rest) + 604800000 := by omega
      have hmono := Timeline.monthOfDay_mono
        (by unfold dayNumber; omega : dayNumber m0
          ≤ dayNumber ((m0 :: rest).getLast (List.cons_ne_nil m0 rest) + 604800000))
      exact Timeline.monthBlocks_tiles m0 _ 604800000 (by norm_num) _ m0 le_rfl hend (by omega)
    · have htiles : Timeline.tilesFrom 604800000 (Timeline.getHigherLevelUnits (m0 :: rest) .week)
          ((m0 : Int) : ℚ)
          (((m0 :: rest).getLast (List.cons_ne_nil m0 rest) + 604800000 : Int) : ℚ) := by
        rw [Timeline.getHigherLevelUnits_week_eq]
        have hend : m0 ≤ (m0 :: rest).getLast (List.cons_ne_nil m0 rest) + 604800000 := by omega
        have hmono := Timeline.monthOfDay_mono
          (by unfold dayNumber; omega : dayNumber m0
            ≤ dayNumber ((m0 :: rest).getLast (List.cons_ne_nil m0 rest) + 604800000))
        exact Timeline.monthBlocks_tiles m0 _ 604800000 (by norm_num) _ m0 le_rfl hend (by omega)
      have hsum := Timeline.tilesFrom_sum 604800000 _ _ _ htiles
      rw [hsum]
      simp only [List.head_cons]
      push_cast
      ring
    · rw [Timeline.getHigherLevelUnits_day_eq m0 rest hlen]
      have hend : m0 ≤ (m0 :: rest).getLast (List.cons_ne_nil m0 rest) + 86400000 := by omega
      have hmono := Timeline.monthOfDay_mono
        (by unfold dayNumber; omega : dayNumber m0
          ≤ dayNumber ((m0 :: rest).getLast (List.cons_ne_nil m0 rest) + 86400000))
      exact Timeline.monthBlocks_tiles m0 _ 86400000 (by norm_num) _ m0 le_rfl hend (by omega)
    · have htiles : Timeline.tilesFrom 86400000 (Timeline.getHigherLevelUnits (m0 :: rest) .day)
          ((m0 : Int) : ℚ)
          (((m0 :: rest).getLast (List.cons_ne_nil m0 rest) + 86400000 : Int) : ℚ) := by
        rw [Timeline.getHigherLevelUnits_day_eq m0 rest hlen]
        have hend : m0 ≤ (m0 :: rest).getLast (List.cons_ne_nil m0 rest) + 86400000 := by omega
        have hmono := Timeline.monthOfDay_mono
          (by unfold dayNumber; omega : dayNumber m0
            ≤ dayNumber ((m0 :: rest).getLast (List.cons_ne_nil m0 rest) + 86400000))
        exact Timeline.monthBlocks_tiles m0 _ 86400000 (by norm_num) _ m0 le_rfl hend (by omega)
      have hsum := Timeline.tilesFrom_sum 86400000 _ _ _ htiles
      rw [hsum]
      simp only [List.head_cons]
      push_cast
      ring

/-- Witness for `header_coverage_amended` at a concrete input. -/
theorem header_coverage_amended_witness :
    (((Timeline.getHigherLevelUnits [0, 3600000] .minute).map Timeline.HeaderUnit.span).sum
        = (([0, 3600000] : List Int).length : ℚ)) ∧
    (((Timeline.getHigherLevelUnits [0, 3600000] .hour).map Timeline.HeaderUnit.span).sum
        = (([0, 3600000] : List Int).length : ℚ)) ∧
    (Timeline.tilesFrom 604800000 (Timeline.getHigherLevelUnits [0, 3600000] .week)
        ((([0, 3600000] : List Int).head (List.cons_ne_nil 0 [3600000]) : Int) : ℚ)
        ((([0, 3600000] : List Int).getLast (List.cons_ne_nil 0 [3600000]) + 604800000 : Int) : ℚ) ∧
      ((Timeline.getHigherLevelUnits [0, 3600000] .week).map Timeline.HeaderUnit.span).sum
          * ((604800000 : Int) : ℚ)
        = ((([0, 3600000] : List Int).getLast (List.cons_ne_nil 0 [3600000]) + 604800000
            - ([0, 3600000] : List Int).head (List.cons_ne_nil 0 [3600000]) : Int) : ℚ)) ∧
    (2 ≤ ([0, 3600000] : List Int).length →
      Timeline.tilesFrom 86400000 (Timeline.getHigherLevelUnits [0, 3600000] .day)
        ((([0, 3600000] : List Int).head (List.cons_ne_nil 0 [3600000]) : Int) : ℚ)
        ((([0, 3600000] : List Int).getLast (List.cons_ne_nil 0 [3600000]) + 86400000 : Int) : ℚ) ∧
      ((Timeline.getHigherLevelUnits [0, 3600000] .day).map Timeline.HeaderUnit.span).sum
          * ((86400000 : Int) : ℚ)
        = ((([0, 3600000] : List Int).getLast (List.cons_ne_nil 0 [3600000]) + 86400000
            - ([0, 3600000] : List Int).head (List.cons_ne_nil 0 [3600000]) : Int) : ℚ)) :=
  header_coverage_amended [0, 3600000] (List.cons_ne_nil 0 [3600000])
    (by simp [List.chain'_cons, List.chain'_singleton])

/-- Claim C10: on a strictly ascending input sequence, every emitted
`HeaderUnit` of `getHigherLevelUnits` has a positive span, and the emitted
dates are strictly increasing, in each of the four hierarchical view modes. -/
theorem header_units_invariants (months : List Int) (viewMode : ViewMode)
    (hmode : viewMode = .minute ∨ viewMode = .hour ∨ viewMode = .day ∨ viewMode = .week)
    (hasc : List.Chain' (fun a b : Int => a < b) months) :
    (∀ g ∈ Timeline.getHigherLevelUnits months viewMode, 0 < g.span) ∧
    List.Chain' (fun g1 g2 : Timeline.HeaderUnit => g1.date < g2.date)
      (Timeline.getHigherLevelUnits months viewMode) := by
  cases months with
  | nil =>
      have hres : Timeline.getHigherLevelUnits [] viewMode = [] := rfl
      rw [hres]
      exact ⟨fun g hg => absurd hg (List.not_mem_nil g), List.chain'_nil⟩
  | cons m0 rest =>
    have hml : m0 ≤ (m0 :: rest).getLast (List.cons_ne_nil m0 rest) := by
      have hpw : List.Pairwise (fun a b : Int => a < b) (m0 :: rest) :=
        List.chain'_iff_pairwise.mp hasc
      have hmem := List.getLast_mem (List.cons_ne_nil m0 rest)
      rcases List.mem_cons.mp hmem with h1 | h2
      · rw [h1]
      · exact le_of_lt ((List.pairwise_cons.mp hpw).1 _ h2)
    rcases hmode with h | h | h | h <;> subst h
    · have hstep : Timeline.minuteGroups (m0 :: rest) (m0 / 3600000 * 3600000) 0
          = Timeline.minuteGroups rest (m0 / 3600000 * 3600000) 1 := by
        conv_lhs => unfold Timeline.minuteGroups
        rw [if_pos ((Timeline.hour_key_match_iff m0 (m0 / 3600000 * 3600000) (by omega)).mpr rfl)]
        norm_num
      obtain ⟨hpos, hchain, _⟩ :=
        Timeline.minuteGroups_invariants rest (m0 / 3600000 * 3600000) 1 m0 one_pos rfl hasc
      show (∀ g ∈ Timeline.minuteGroups (m0 :: rest) (m0 / 3600000 * 3600000) 0, 0 < g.span) ∧
        List.Chain' (fun g1 g2 : Timeline.HeaderUnit => g1.date < g2.date)
          (Timeline.minuteGroups (m0 :: rest) (m0 / 3600000 * 3600000) 0)
      rw [hstep]
      exact ⟨hpos, hchain⟩
    · have hstep : Timeline.hourGroups (m0 :: rest) (m0 / 86400000 * 86400000) 0
          = Timeline.hourGroups rest (m0 / 86400000 * 86400000) 1 := by
        conv_lhs => unfold Timeline.hourGroups
        rw [if_pos ((Timeline.day_key_match_iff m0 (m0 / 86400000 * 86400000) (by omega)).mpr rfl)]
        norm_num
      obtain ⟨hpos, hchain, _⟩ :=
        Timeline.hourGroups_invariants rest (m0 / 86400000 * 86400000) 1 m0 one_pos rfl hasc
      show (∀ g ∈ Timeline.hourGroups (m0 :: rest) (m0 / 86400000 * 86400000) 0, 0 < g.span) ∧
        List.Chain' (fun g1 g2 : Timeline.HeaderUnit => g1.date < g2.date)
          (Timeline.hourGroups (m0 :: rest) (m0 / 86400000 * 86400000) 0)
      rw [hstep]
      exact ⟨hpos, hchain⟩
    · rcases rest with _ | ⟨r, rs⟩
      · have hres : Timeline.getHigherLevelUnits [m0] .day = [] := rfl
        rw [hres]
        exact ⟨fun g hg => absurd hg (List.not_mem_nil g), List.chain'_nil⟩
      · rw [Timeline.getHigherLevelUnits_day_eq m0 (r :: rs)
          (by simp only [List.length_cons]; omega)]
        have hend : m0 ≤ (m0 :: r :: rs).getLast (List.cons_ne_nil m0 (r :: rs)) + 86400000 := by
          omega
        have hmono := Timeline.monthOfDay_mono
          (by unfold dayNumber; omega : dayNumber m0
            ≤ dayNumber ((m0 :: r :: rs).getLast (List.cons_ne_nil m0 (r :: rs)) + 86400000))
        have htiles := Timeline.monthBlocks_tiles m0
          ((m0 :: r :: rs).getLast (List.cons_ne_nil m0 (r :: rs)) + 86400000) 86400000
          (by norm_num)
          (monthOfDay (dayNumber ((m0 :: r :: rs).getLast (List.cons_ne_nil m0 (r :: rs))
            + 86400000)) - monthOfDay (dayNumber m0) + 2).toNat m0 le_rfl hend (by omega)
        have hpos := Timeline.monthBlocks_spans_pos m0
          ((m0 :: r :: rs).getLast (List.cons_ne_nil m0 (r :: rs)) + 86400000) 86400000
          (by norm_num)
          (monthOfDay (dayNumber ((m0 :: r :: rs).getLast (List.cons_ne_nil m0 (r :: rs))
            + 86400000)) - monthOfDay (dayNumber m0) + 2).toNat m0
        exact ⟨hpos, (Timeline.tilesFrom_chain 86400000 (by norm_num) _ _ _ htiles hpos).1⟩
    · rw [Timeline.getHigherLevelUnits_week_eq m0 rest]
      have hend : m0 ≤ (m0 :: rest).getLast (List.cons_ne_nil m0 rest) + 604800000 := by omega
      have hmono := Timeline.monthOfDay_mono
        (by unfold dayNumber; omega : dayNumber m0
          ≤ dayNumber ((m0 :: rest).getLast (List.cons_ne_nil m0 rest) + 604800000))
      have htiles := Timeline.monthBlocks_tiles m0
        ((m0 :: rest).getLast (List.cons_ne_nil m0 rest) + 604800000) 604800000
        (by norm_num)
        (monthOfDay (dayNumber ((m0 :: rest).getLast (List.cons_ne_nil m0 rest)
          + 604800000)) - monthOfDay (dayNumber m0) + 2).toNat m0 le_rfl hend (by omega)
      have hpos := Timeline.monthBlocks_spans_pos m0
        ((m0 :: rest).getLast (List.cons_ne_nil m0 rest) + 604800000) 604800000
        (by norm_num)
        (monthOfDay (dayNumber ((m0 :: rest).getLast (List.cons_ne_nil m0 rest)
          + 604800000)) - monthOfDay (dayNumber m0) + 2).toNat m0
      exact ⟨hpos, (Timeline.tilesFrom_chain 604800000 (by norm_num) _ _ _ htiles hpos).1⟩

/-- Witness for `header_units_invariants` at a concrete input. -/
theorem header_units_invariants_witness :
    (∀ g ∈ Timeline.getHigherLevelUnits [0, 3600000] .minute, 0 < g.span) ∧
    List.Chain' (fun g1 g2 : Timeline.HeaderUnit => g1.date < g2.date)
      (Timeline.getHigherLevelUnits [0, 3600000] .minute) :=
  header_units_invariants [0, 3600000] .minute (Or.inl rfl)
    (by simp [List.chain'_cons, List.chain'_singleton])

/-! ## Specification-side definitions (stated from the spec wording, for the
round-trip refinement claim) -/

/-- Stated from the spec (§4.1, §8): the time worth of one grid quantum per
view mode — one unit for `MINUTE`/`HOUR`/`DAY`, one day for `WEEK`. -/
def specSnapUnitMs : ViewMode → Int
  | .minute => 60000
  | .hour => 3600000
  | .day => 86400000
  | _ => 86400000

/-- Stated from the spec (§4.1 `floorToUnit`): the snapped form of an
interval start — the start of its enclosing snap unit. -/
def specSnappedStart (viewMode : ViewMode) (t : Int) : Int :=
  t / specSnapUnitMs viewMode * specSnapUnitMs viewMode

/-- Stated from the spec (§4.1 `ceilToUnit`): the snapped form of an
interval end — the last tick of its enclosing snap unit. -/
def specSnappedEnd (viewMode : ViewMode) (t : Int) : Int :=
  t / specSnapUnitMs viewMode * specSnapUnitMs viewMode + (specSnapUnitMs viewMode - 1)

/-! ## Theorems -/

/-- Claim C7: with `viewMode = DAY`, `unitWidth = 150`, `totalUnits = 30`,
window `2024-01-01T00:00` to `2024-01-31T00:00`, the pixel interval
`left = 300`, `width = 450` maps back to `2024-01-03T00:00:00.000` –
`2024-01-05T23:59:59.999`. -/
theorem concrete_day_drag_scenario :
    TaskService.calculateDatesFromPosition (.num 300) (.num 450) 1704067200000 1706659200000
        30 150 .day
      = (some 1704240000000, some 1704499199999) := by
  simp only [TaskService.calculateDatesFromPosition, TaskService.snappedDates,
    TaskService.clampToWindow, TaskService.timelineDuration, jsDivN, jsRoundN, jsRound,
    Option.map_some', Option.some_bind]
  norm_num [Int.floor_eq_iff]

/-- Claim C5 (evaluation at the failing input): in `DAY` view a `NaN` `left`
is *not* treated as `0` — the snapping branch uses the raw `left`, so both
returned dates are invalid (`NaN` time values), unlike the valid clamped
interval produced by `left = 0`. -/
theorem nan_left_propagates_invalid_date :
    TaskService.calculateDatesFromPosition .nan (.num 450) 1704067200000 1706659200000
        30 150 .day
      = (none, none) ∧
    TaskService.calculateDatesFromPosition (.num 0) (.num 450) 1704067200000 1706659200000
        30 150 .day
      = (some 1704067200000, some 1704326399999) := by
  constructor
  · decide
  · simp only [TaskService.calculateDatesFromPosition, TaskService.snappedDates,
      TaskService.clampToWindow, TaskService.timelineDuration, jsDivN, jsRoundN, jsRound,
      Option.map_some', Option.some_bind]
    norm_num [Int.floor_eq_iff]

/-- Claim C8: `datesOverlap` is symmetric on valid intervals and reflexive. -/
theorem datesOverlap_symm_and_refl (startA endA startB endB : Int)
    (hA : startA ≤ endA) (hB : startB ≤ endB) :
    TaskService.datesOverlap startA endA startB endB
      = TaskService.datesOverlap startB endB startA endA ∧
    TaskService.datesOverlap startA endA startA endA = true := by
  unfold TaskService.datesOverlap TaskService.isWithinInterval
  constructor
  · rw [Bool.eq_iff_iff]
    simp only [Bool.or_eq_true, Bool.and_eq_true, decide_eq_true_eq]
    tauto
  · simp only [Bool.or_eq_true, Bool.and_eq_true, decide_eq_true_eq]
    omega

/-- Witness for `datesOverlap_symm_and_refl` at a concrete input. -/
theorem datesOverlap_symm_and_refl_witness :
    TaskService.datesOverlap 0 1 2 3 = TaskService.datesOverlap 2 3 0 1 ∧
    TaskService.datesOverlap 0 1 0 1 = true :=
  datesOverlap_symm_and_refl 0 1 2 3 (by decide) (by decide)

/-- Claim C4: both conversion directions use the same effective-duration
rule — `totalUnits ×` the fixed unit duration (60000 / 3600000 / 86400000 /
604800000 ms) for `MINUTE`/`HOUR`/`DAY`/`WEEK`, and the literal
`endDate - startDate` otherwise — so the ms-per-pixel ratio is the same
function of the window in both `calculateDatesFromPosition` and
`calculateTaskPixelPosition`. -/
theorem effective_duration_identical_both_directions (startDate endDate : Int)
    (totalUnits : ℚ) (viewMode : ViewMode) :
    TaskService.totalTimelineRange
        (TaskService.normalizeWindow viewMode startDate endDate).1
        (TaskService.normalizeWindow viewMode startDate endDate).2 totalUnits viewMode
      = TaskService.timelineDuration startDate endDate totalUnits viewMode ∧
    TaskService.timelineDuration startDate endDate totalUnits viewMode
      = (match viewMode with
         | .minute => totalUnits * 60000
         | .hour => totalUnits * 3600000
         | .day => totalUnits * 86400000
         | .week => totalUnits * 604800000
         | _ => ((endDate - startDate : Int) : ℚ)) := by
  cases viewMode <;>
    refine ⟨?_, ?_⟩ <;>
      simp only [TaskService.totalTimelineRange, TaskService.timelineDuration,
        TaskService.normalizeWindow] <;>
      ring

/-- Claim C9: when a window `startDate` is supplied and the view mode is one
of the four fixed-duration modes, the marker offset is the grid-exact
elapsed fraction `(instant - startDate) / unitDurationMs × unitWidth`,
independent of the reference index; a negative reference index suppresses
the marker. -/
theorem marker_grid_exact_placement (currentMonthIndex : Int) (dayOfMonth : Option Int)
    (viewMode : ViewMode) (unitWidth : ℚ) (s : Int) (currentDate : Option Int) (now : Int)
    (hmode : viewMode = .minute ∨ viewMode = .hour ∨ viewMode = .day ∨ viewMode = .week) :
    (0 ≤ currentMonthIndex →
      TodayMarker.todayMarkerOffset currentMonthIndex dayOfMonth viewMode unitWidth (some s)
          currentDate now
        = some (((currentDate.getD now - s : Int) : ℚ)
            / ((match viewMode with
                | .minute => (60000 : Int)
                | .hour => 3600000
                | .day => 86400000
                | .week => 604800000
                | _ => 0) : Int) * unitWidth)) ∧
    (currentMonthIndex < 0 →
      TodayMarker.todayMarkerOffset currentMonthIndex dayOfMonth viewMode unitWidth (some s)
          currentDate now = none) := by
  constructor
  · intro hidx
    rcases hmode with h | h | h | h <;> subst h <;>
      simp only [TodayMarker.todayMarkerOffset, if_neg (not_lt.mpr hidx)] <;>
      exact congrArg some rfl
  · intro hidx
    simp [TodayMarker.todayMarkerOffset, hidx]

/-- Witness for `marker_grid_exact_placement` at a concrete input. -/
theorem marker_grid_exact_placement_witness :
    TodayMarker.todayMarkerOffset 2 none .day 150 (some 0) (some 86400000) 0
      = some (((86400000 - 0 : Int) : ℚ) / ((86400000 : Int) : ℚ) * 150) :=
  (marker_grid_exact_placement 2 none .day 150 0 (some 86400000) 0
    (Or.inr (Or.inr (Or.inl rfl)))).1 (by decide)

/-! ## Rounding toolbox for the round-trip analysis -/

theorem jsRound_le (q : ℚ) : (jsRound q : ℚ) ≤ q + 1 / 2 :=
  Int.floor_le (q + 1 / 2)

theorem lt_jsRound (q : ℚ) : q - 1 / 2 < (jsRound q : ℚ) := by
  have := Int.sub_one_lt_floor (q + 1 / 2)
  unfold jsRound
  linarith

theorem jsRound_intCast (k : Int) : jsRound ((k : Int) : ℚ) = k := by
  unfold jsRound
  rw [add_comm, Int.floor_add_int]
  norm_num

theorem jsRound_int_mul_div (k : Int) (w : ℚ) (hw : w ≠ 0) :
    jsRound ((k : Int) * w / w) = k := by
  rw [mul_div_cancel_right₀ _ hw]
  exact jsRound_intCast k

theorem jsRound_span_day (n : Int) :
    jsRound (((n * 86400000 + 86399999 : Int) : ℚ) / 86400000) = n + 1 := by
  unfold jsRound
  have h : ((n * 86400000 + 86399999 : Int) : ℚ) / 86400000
      = (n : ℚ) + 86399999 / 86400000 := by
    push_cast
    ring
  rw [h, Int.floor_eq_iff]
  constructor
  · have hf : (1 : ℚ) ≤ 86399999 / 86400000 + 1 / 2 := by norm_num
    push_cast
    linarith
  · have hf : 86399999 / 86400000 + 1 / 2 < (2 : ℚ) := by norm_num
    push_cast
    linarith

theorem jsRound_span_hour (n : Int) :
    jsRound (((n * 3600000 + 3599999 : Int) : ℚ) / 3600000) = n + 1 := by
  unfold jsRound
  have h : ((n * 3600000 + 3599999 : Int) : ℚ) / 3600000
      = (n : ℚ) + 3599999 / 3600000 := by
    push_cast
    ring
  rw [h, Int.floor_eq_iff]
  constructor
  · have hf : (1 : ℚ) ≤ 3599999 / 3600000 + 1 / 2 := by norm_num
    push_cast
    linarith
  · have hf : 3599999 / 3600000 + 1 / 2 < (2 : ℚ) := by norm_num
    push_cast
    linarith

theorem jsRound_span_minute (n : Int) :
    jsRound (((n * 60000 + 59999 : Int) : ℚ) / 60000) = n + 1 := by
  unfold jsRound
  have h : ((n * 60000 + 59999 : Int) : ℚ) / 60000 = (n : ℚ) + 59999 / 60000 := by
    push_cast
    ring
  rw [h, Int.floor_eq_iff]
  constructor
  · have hf : (1 : ℚ) ≤ 59999 / 60000 + 1 / 2 := by norm_num
    push_cast
    linarith
  · have hf : 59999 / 60000 + 1 / 2 < (2 : ℚ) := by norm_num
    push_cast
    linarith

/-- Rounding a pixel offset to whole pixels and back to whole units moves the
index by at most one unit. -/
theorem double_round_bracket (x : ℚ) (uw : ℚ) (huw : 1 < uw) (p : Int)
    (hp1 : (p : ℚ) ≤ x) (hp2 : x < p + 1) :
    p ≤ jsRound ((jsRound (x * uw) : ℚ) / uw) ∧
    jsRound ((jsRound (x * uw) : ℚ) / uw) ≤ p + 1 := by
  have huw0 : (0 : ℚ) < uw := by linarith
  have h1 := jsRound_le (x * uw)
  have h2 := lt_jsRound (x * uw)
  have h3 := jsRound_le ((jsRound (x * uw) : ℚ) / uw)
  have h4 := lt_jsRound ((jsRound (x * uw) : ℚ) / uw)
  set L : ℚ := (jsRound (x * uw) : ℚ) with hL
  set m : Int := jsRound (L / uw) with hm
  have hub : (m : ℚ) * uw - uw / 2 ≤ L := by
    have := (le_div_iff huw0).mp (by linarith : (m : ℚ) - 1 / 2 ≤ L / uw)
    linarith [this]
  have hlb : L < (m : ℚ) * uw + uw / 2 := by
    have := (div_lt_iff huw0).mp (by linarith : L / uw < (m : ℚ) + 1 / 2)
    linarith [this]
  constructor
  · by_contra hc
    push_neg at hc
    have hmp : (m : ℚ) ≤ (p : ℚ) - 1 := by
      have h : (m : Int) ≤ p - 1 := by omega
      exact_mod_cast h
    have hxm : (1 : ℚ) ≤ x - (m : ℚ) := by linarith
    have hprod := mul_le_mul_of_nonneg_right hxm huw0.le
    rw [one_mul, sub_mul] at hprod
    linarith
  · by_contra hc
    push_neg at hc
    have hmp : (p : ℚ) + 2 ≤ (m : ℚ) := by
      have h : p + 2 ≤ (m : Int) := by omega
      exact_mod_cast h
    have hxm : (1 : ℚ) ≤ (m : ℚ) - x := by linarith
    have hprod := mul_le_mul_of_nonneg_right hxm huw0.le
    rw [one_mul, sub_mul] at hprod
    linarith

/-- Bracket for the reconstructed span of the inverse path in `MINUTE`/`HOUR`
view: with pixel width `min cap (max minW (round (β·uw)))`, the span count
`max 1 (round (width / uw))` stays within one unit of the true span. -/
theorem span_bracket (β uw minW cap : ℚ) (n1 : Int)
    (huw : 1 < uw) (hminW1 : 0 < minW) (hminW2 : minW ≤ uw)
    (hb1 : (n1 : ℚ) - 1 < β) (hb2 : β < (n1 : ℚ) + 1) (hn0 : 0 ≤ n1)
    (hcap : β * uw + uw - 1 / 2 ≤ cap) :
    n1 - 1 ≤ max 1 (jsRound (min cap (max minW ((jsRound (β * uw) : Int) : ℚ)) / uw)) ∧
    max 1 (jsRound (min cap (max minW ((jsRound (β * uw) : Int) : ℚ)) / uw)) ≤ n1 + 1 ∧
    1 ≤ max 1 (jsRound (min cap (max minW ((jsRound (β * uw) : Int) : ℚ)) / uw)) := by
  have huw0 : (0 : ℚ) < uw := by linarith
  have h1 := jsRound_le (β * uw)
  have h2 := lt_jsRound (β * uw)
  set W1 : ℚ := ((jsRound (β * uw) : Int) : ℚ) with hW1
  set Wf : ℚ := min cap (max minW W1) with hWf
  have h3 := jsRound_le (Wf / uw)
  have h4 := lt_jsRound (Wf / uw)
  set j : Int := jsRound (Wf / uw) with hj
  have hub : (j : ℚ) * uw - uw / 2 ≤ Wf := by
    have := (le_div_iff huw0).mp (by linarith : (j : ℚ) - 1 / 2 ≤ Wf / uw)
    linarith [this]
  have hlb : Wf < (j : ℚ) * uw + uw / 2 := by
    have := (div_lt_iff huw0).mp (by linarith : Wf / uw < (j : ℚ) + 1 / 2)
    linarith [this]
  refine ⟨?_, ?_, le_max_left _ _⟩
  · apply le_max_of_le_right
    by_contra hc
    push_neg at hc
    have hjq : (j : ℚ) ≤ (n1 : ℚ) - 2 := by
      have h : (j : Int) ≤ n1 - 2 := by omega
      exact_mod_cast h
    have hWlb : β * uw - 1 / 2 ≤ Wf := by
      rw [hWf]
      apply le_min
      · linarith
      · exact le_trans (le_of_lt h2) (le_max_right minW W1)
    have hxm : (1 : ℚ) ≤ β - (j : ℚ) := by linarith
    have hprod := mul_le_mul_of_nonneg_right hxm huw0.le
    rw [one_mul, sub_mul] at hprod
    linarith
  · have h1n : (1 : Int) ≤ n1 + 1 := by omega
    refine max_le h1n ?_
    by_contra hc
    push_neg at hc
    have hjq : (n1 : ℚ) + 2 ≤ (j : ℚ) := by
      have h : n1 + 2 ≤ (j : Int) := by omega
      exact_mod_cast h
    rcases le_total W1 minW with hW | hW
    · have hWub : Wf ≤ uw := by
        rw [hWf]
        exact le_trans (min_le_right _ _) (le_trans (max_le hminW2 (le_trans hW hminW2)) le_rfl)
      have hn0q : (0 : ℚ) ≤ (n1 : ℚ) := by exact_mod_cast hn0
      have hxm : (3 / 2 : ℚ) ≤ (j : ℚ) - 1 / 2 := by
        have h2j : (2 : ℚ) ≤ (j : ℚ) := by linarith
        linarith
      have hprod := mul_le_mul_of_nonneg_right hxm huw0.le
      rw [sub_mul] at hprod
      linarith
    · have hWub : Wf ≤ β * uw + 1 / 2 := by
        rw [hWf]
        exact le_trans (min_le_right _ _) (le_trans (max_le (le_trans hW (by linarith)) (by linarith)) le_rfl)
      have hxm : (1 : ℚ) ≤ (j : ℚ) - β := by linarith
      have hprod := mul_le_mul_of_nonneg_right hxm huw0.le
      rw [one_mul, sub_mul] at hprod
      linarith

/-! ## Casting integer division to rational bounds -/

theorem cast_le_div (A p d : Int) (hd : 0 < d) (h : p * d ≤ A) :
    (p : ℚ) ≤ (A : ℚ) / (d : ℚ) := by
  have hdq : (0 : ℚ) < (d : ℚ) := by exact_mod_cast hd
  rw [le_div_iff₀ hdq]
  exact_mod_cast h

theorem div_le_cast (A p d : Int) (hd : 0 < d) (h : A ≤ p * d) :
    (A : ℚ) / (d : ℚ) ≤ (p : ℚ) := by
  have hdq : (0 : ℚ) < (d : ℚ) := by exact_mod_cast hd
  rw [div_le_iff₀ hdq]
  exact_mod_cast h

theorem cast_lt_div (A p d : Int) (hd : 0 < d) (h : p * d < A) :
    (p : ℚ) < (A : ℚ) / (d : ℚ) := by
  have hdq : (0 : ℚ) < (d : ℚ) := by exact_mod_cast hd
  rw [lt_div_iff₀ hdq]
  exact_mod_cast h

theorem div_lt_cast (A p d : Int) (hd : 0 < d) (h : A < p * d) :
    (A : ℚ) / (d : ℚ) < (p : ℚ) := by
  have hdq : (0 : ℚ) < (d : ℚ) := by exact_mod_cast hd
  rw [div_lt_iff₀ hdq]
  exact_mod_cast h

/-! ## Normalisation rewrites for `calculateTaskPixelPosition` -/

theorem normalizeWindow_day (s e : Int) :
    TaskService.normalizeWindow .day s e
      = (s / 86400000 * 86400000, e / 86400000 * 86400000 + 86399999) := by
  simp only [TaskService.normalizeWindow]
  rw [mkTime_fields, mkTime_fields]
  unfold dayNumber
  simp only [Prod.mk.injEq]
  constructor <;> omega

theorem normalizeWindow_week (s e : Int) :
    TaskService.normalizeWindow .week s e
      = (s / 86400000 * 86400000, e / 86400000 * 86400000 + 86399999) := by
  simp only [TaskService.normalizeWindow]
  rw [mkTime_fields, mkTime_fields]
  unfold dayNumber
  simp only [Prod.mk.injEq]
  constructor <;> omega

theorem normalizeWindow_hour (s e : Int) :
    TaskService.normalizeWindow .hour s e
      = (s / 3600000 * 3600000, e / 3600000 * 3600000 + 3599999) := by
  simp only [TaskService.normalizeWindow]
  rw [mkTime_fields, mkTime_fields]
  unfold dayNumber getHours
  simp only [Prod.mk.injEq]
  constructor <;> omega

theorem normalizeTask_day (x y : Int) :
    TaskService.normalizeTask .day x y
      = (x / 86400000 * 86400000, y / 86400000 * 86400000 + 86399999) := by
  simp only [TaskService.normalizeTask]
  rw [mkTime_fields, mkTime_fields]
  unfold dayNumber
  simp only [Prod.mk.injEq]
  constructor <;> omega

theorem normalizeTask_week (x y : Int) :
    TaskService.normalizeTask .week x y
      = (x / 86400000 * 86400000, y / 86400000 * 86400000 + 86399999) := by
  simp only [TaskService.normalizeTask]
  rw [mkTime_fields, mkTime_fields]
  unfold dayNumber
  simp only [Prod.mk.injEq]
  constructor <;> omega

/-- Forward conversion in `DAY` view: on a grid-consistent window the pixel
interval is exactly `k` units of offset and `n + 1` units of width, where
`k` and `n` count the day boundaries crossed. -/
theorem calcPix_day (a b s e : Int) (tu uw : ℚ) (htu : 0 < tu) (huw : 0 < uw)
    (hsa : s ≤ a) (hab : a ≤ b) (hbe : b ≤ e) (hfit1 : 20 ≤ uw)
    (hfit2 : ((e / 86400000 - s / 86400000 + 1 : Int) : ℚ) ≤ tu) :
    TaskService.calculateTaskPixelPosition a b s e tu uw .day
      = (((a / 86400000 - s / 86400000 : Int) : ℚ) * uw,
         ((b / 86400000 - a / 86400000 + 1 : Int) : ℚ) * uw) := by
  have htu0 : tu ≠ 0 := ne_of_gt htu
  have huw0 : uw ≠ 0 := ne_of_gt huw
  unfold TaskService.calculateTaskPixelPosition
  dsimp only
  rw [max_eq_left hsa, min_eq_left hbe, normalizeWindow_day, normalizeTask_day]
  dsimp only
  simp only [TaskService.totalTimelineRange, TaskService.minWidthByViewMode]
  rw [show (a / 86400000 * 86400000 - s / 86400000 * 86400000 : Int)
    = (a / 86400000 - s / 86400000) * 86400000 from by ring]
  rw [show (b / 86400000 * 86400000 + 86399999 - a / 86400000 * 86400000 : Int)
    = (b / 86400000 - a / 86400000) * 86400000 + 86399999 from by ring]
  set k : Int := a / 86400000 - s / 86400000 with hk
  set n : Int := b / 86400000 - a / 86400000 with hn
  have hk0 : 0 ≤ k := by rw [hk]; omega
  have hn0 : 0 ≤ n := by rw [hn]; omega
  have hLP : ((k * 86400000 : Int) : ℚ) / (tu * 24 * 60 * 60 * 1000) * (tu * uw) / uw
      = ((k : Int) : ℚ) := by
    push_cast
    field_simp
    ring
  have hWP : ((n * 86400000 + 86399999 : Int) : ℚ) / (tu * 24 * 60 * 60 * 1000) * (tu * uw) / uw
      = ((n * 86400000 + 86399999 : Int) : ℚ) / 86400000 := by
    push_cast
    field_simp
    ring
  rw [hLP, hWP, jsRound_intCast, jsRound_span_day]
  have hone : (1 : ℚ) ≤ ((n + 1 : Int) : ℚ) := by
    push_cast
    have : (0 : ℚ) ≤ (n : ℚ) := by exact_mod_cast hn0
    linarith
  have hmax1 : max uw (((n + 1 : Int) : ℚ) * uw) = ((n + 1 : Int) : ℚ) * uw :=
    max_eq_right (le_mul_of_one_le_left huw.le hone)
  have hmax2 : max 20 (((n + 1 : Int) : ℚ) * uw) = ((n + 1 : Int) : ℚ) * uw :=
    max_eq_right (le_trans hfit1 (le_mul_of_one_le_left huw.le hone))
  have hcap : ((n + 1 : Int) : ℚ) * uw ≤ tu * uw - ((k : Int) : ℚ) * uw := by
    have hsum : ((n + 1 : Int) : ℚ) + ((k : Int) : ℚ) ≤ tu := by
      refine le_trans ?_ hfit2
      push_cast
      have h : (n + 1) + k ≤ e / 86400000 - s / 86400000 + 1 := by omega
      exact_mod_cast (by push_cast; exact_mod_cast h : ((n + 1 + k : Int) : ℚ)
        ≤ ((e / 86400000 - s / 86400000 + 1 : Int) : ℚ))
    have := mul_le_mul_of_nonneg_right hsum huw.le
    nlinarith
  rw [hmax1, hmax2, min_eq_right hcap, Prod.mk.injEq]
  constructor
  · rfl
  · push_cast
    ring

/-- Forward conversion in `WEEK` view: on a grid-consistent window the pixel
interval is exactly `k` day-slots of offset and `n + 1` day-slots of width
at `unitWidth / 7` pixels per day-slot. -/
theorem calcPix_week (a b s e : Int) (tu uw : ℚ) (htu : 0 < tu) (huw : 0 < uw)
    (hsa : s ≤ a) (hab : a ≤ b) (hbe : b ≤ e) (hfit1 : 140 ≤ uw)
    (hfit2 : ((e / 86400000 - s / 86400000 + 1 : Int) : ℚ) ≤ 7 * tu) :
    TaskService.calculateTaskPixelPosition a b s e tu uw .week
      = (((a / 86400000 - s / 86400000 : Int) : ℚ) * (uw / 7),
         ((b / 86400000 - a / 86400000 + 1 : Int) : ℚ) * (uw / 7)) := by
  have htu0 : tu ≠ 0 := ne_of_gt htu
  have huw0 : uw ≠ 0 := ne_of_gt huw
  have huw7 : (0 : ℚ) < uw / 7 := by linarith
  unfold TaskService.calculateTaskPixelPosition
  dsimp only
  rw [max_eq_left hsa, min_eq_left hbe, normalizeWindow_week, normalizeTask_week]
  dsimp only
  simp only [TaskService.totalTimelineRange, TaskService.minWidthByViewMode]
  rw [show (a / 86400000 * 86400000 - s / 86400000 * 86400000 : Int)
    = (a / 86400000 - s / 86400000) * 86400000 from by ring]
  rw [show (b / 86400000 * 86400000 + 86399999 - a / 86400000 * 86400000 : Int)
    = (b / 86400000 - a / 86400000) * 86400000 + 86399999 from by ring]
  set k : Int := a / 86400000 - s / 86400000 with hk
  set n : Int := b / 86400000 - a / 86400000 with hn
  have hk0 : 0 ≤ k := by rw [hk]; omega
  have hn0 : 0 ≤ n := by rw [hn]; omega
  have hLP : ((k * 86400000 : Int) : ℚ) / (tu * 7 * 24 * 60 * 60 * 1000) * (tu * uw) / (uw / 7)
      = ((k : Int) : ℚ) := by
    push_cast
    field_simp
    ring
  have hWP : ((n * 86400000 + 86399999 : Int) : ℚ) / (tu * 7 * 24 * 60 * 60 * 1000) * (tu * uw)
        / (uw / 7)
      = ((n * 86400000 + 86399999 : Int) : ℚ) / 86400000 := by
    push_cast
    field_simp
    ring
  rw [hLP, hWP, jsRound_intCast, jsRound_span_day]
  have hone : (1 : ℚ) ≤ ((n + 1 : Int) : ℚ) := by
    push_cast
    have : (0 : ℚ) ≤ (n : ℚ) := by exact_mod_cast hn0
    linarith
  have hmax1 : max (uw / 7) (((n + 1 : Int) : ℚ) * (uw / 7)) = ((n + 1 : Int) : ℚ) * (uw / 7) :=
    max_eq_right (le_mul_of_one_le_left huw7.le hone)
  have hmax2 : max 20 (((n + 1 : Int) : ℚ) * (uw / 7)) = ((n + 1 : Int) : ℚ) * (uw / 7) :=
    max_eq_right (le_trans (by linarith) (le_mul_of_one_le_left huw7.le hone))
  have hcap : ((n + 1 : Int) : ℚ) * (uw / 7) ≤ tu * uw - ((k : Int) : ℚ) * (uw / 7) := by
    have hsum : ((n + 1 : Int) : ℚ) + ((k : Int) : ℚ) ≤ 7 * tu := by
      refine le_trans ?_ hfit2
      push_cast
      have h : (n + 1) + k ≤ e / 86400000 - s / 86400000 + 1 := by omega
      exact_mod_cast (by push_cast; exact_mod_cast h : ((n + 1 + k : Int) : ℚ)
        ≤ ((e / 86400000 - s / 86400000 + 1 : Int) : ℚ))
    have := mul_le_mul_of_nonneg_right hsum huw7.le
    nlinarith
  rw [hmax1, hmax2, min_eq_right hcap, Prod.mk.injEq]
  constructor
  · rfl
  · push_cast
    ring

/-- Forward conversion in `HOUR` view, with percent arithmetic collapsed to
the canonical form `offset-in-ms / 3600000 * unitWidth`. -/
theorem calcPix_hour (a b s e : Int) (tu uw : ℚ) (htu : 0 < tu) (huw : 0 < uw)
    (hsa : s ≤ a) (hbe : b ≤ e) :
    TaskService.calculateTaskPixelPosition a b s e tu uw .hour
      = (((jsRound (((a - s / 3600000 * 3600000 : Int) : ℚ) / 3600000 * uw) : Int) : ℚ),
         min (tu * uw
              - ((jsRound (((a - s / 3600000 * 3600000 : Int) : ℚ) / 3600000 * uw) : Int) : ℚ))
           (max 15 ((jsRound (((b - a : Int) : ℚ) / 3600000 * uw) : Int) : ℚ))) := by
  have htu0 : tu ≠ 0 := ne_of_gt htu
  have huw0 : uw ≠ 0 := ne_of_gt huw
  unfold TaskService.calculateTaskPixelPosition
  dsimp only
  rw [max_eq_left hsa, min_eq_left hbe, normalizeWindow_hour]
  simp only [TaskService.normalizeTask, TaskService.totalTimelineRange,
    TaskService.minWidthByViewMode]
  rw [show ((a - s / 3600000 * 3600000 : Int) : ℚ) / (tu * 60 * 60 * 1000) * (tu * uw)
    = ((a - s / 3600000 * 3600000 : Int) : ℚ) / 3600000 * uw from by field_simp; ring]
  rw [show ((b - a : Int) : ℚ) / (tu * 60 * 60 * 1000) * (tu * uw)
    = ((b - a : Int) : ℚ) / 3600000 * uw from by field_simp; ring]
  rw [← max_assoc, max_self]

/-- Forward conversion in `MINUTE` view, with percent arithmetic collapsed to
the canonical form `offset-in-ms / 60000 * unitWidth`. -/
theorem calcPix_minute (a b s e : Int) (tu uw : ℚ) (htu : 0 < tu) (huw : 0 < uw)
    (hsa : s ≤ a) (hbe : b ≤ e) :
    TaskService.calculateTaskPixelPosition a b s e tu uw .minute
      = (((jsRound (((a - s : Int) : ℚ) / 60000 * uw) : Int) : ℚ),
         min (tu * uw - ((jsRound (((a - s : Int) : ℚ) / 60000 * uw) : Int) : ℚ))
           (max 10 ((jsRound (((b - a : Int) : ℚ) / 60000 * uw) : Int) : ℚ))) := by
  have htu0 : tu ≠ 0 := ne_of_gt htu
  have huw0 : uw ≠ 0 := ne_of_gt huw
  unfold TaskService.calculateTaskPixelPosition
  dsimp only
  rw [max_eq_left hsa, min_eq_left hbe]
  simp only [TaskService.normalizeWindow, TaskService.normalizeTask,
    TaskService.totalTimelineRange, TaskService.minWidthByViewMode]
  rw [show ((a - s : Int) : ℚ) / (tu * 60 * 1000) * (tu * uw)
    = ((a - s : Int) : ℚ) / 60000 * uw from by field_simp; ring]
  rw [show ((b - a : Int) : ℚ) / (tu * 60 * 1000) * (tu * uw)
    = ((b - a : Int) : ℚ) / 60000 * uw from by field_simp; ring]
  rw [← max_assoc, max_self]

/-- Round trip in `DAY` view: the pixel interval maps back exactly to the
day-snapped task dates, clamped to the window. -/
theorem round_trip_day (a b s e : Int) (tu uw : ℚ) (htu : 0 < tu)
    (hsa : s ≤ a) (hab : a ≤ b) (hbe : b ≤ e) (hfit1 : 20 ≤ uw)
    (hfit2 : ((e / 86400000 - s / 86400000 + 1 : Int) : ℚ) ≤ tu) :
    TaskService.calculateDatesFromPosition
        (.num (TaskService.calculateTaskPixelPosition a b s e tu uw .day).1)
        (.num (TaskService.calculateTaskPixelPosition a b s e tu uw .day).2)
        s e tu uw .day
      = (some (max s (a / 86400000 * 86400000)),
         some (min e (b / 86400000 * 86400000 + 86399999))) := by
  have huw : (0 : ℚ) < uw := lt_of_lt_of_le (by norm_num) hfit1
  have huw0 : uw ≠ 0 := ne_of_gt huw
  rw [calcPix_day a b s e tu uw htu huw hsa hab hbe hfit1 hfit2]
  unfold TaskService.calculateDatesFromPosition TaskService.snappedDates
    TaskService.clampToWindow
  dsimp only
  simp only [jsDivN, jsRoundN, Option.map_some', Option.some_bind]
  rw [jsRound_int_mul_div (a / 86400000 - s / 86400000) uw huw0,
    jsRound_int_mul_div (b / 86400000 - a / 86400000 + 1) uw huw0]
  rw [max_eq_right (by omega : (1 : Int) ≤ b / 86400000 - a / 86400000 + 1)]
  rw [Prod.mk.injEq]
  constructor
  · split_ifs with h
    · exact congrArg some (by omega)
    · exact congrArg some (by omega)
  · split_ifs with h
    · exact congrArg some (by omega)
    · exact congrArg some (by omega)

/-- Round trip in `WEEK` view: the pixel interval maps back exactly to the
day-snapped task dates, clamped to the window. -/
theorem round_trip_week (a b s e : Int) (tu uw : ℚ) (htu : 0 < tu)
    (hsa : s ≤ a) (hab : a ≤ b) (hbe : b ≤ e) (hfit1 : 140 ≤ uw)
    (hfit2 : ((e / 86400000 - s / 86400000 + 1 : Int) : ℚ) ≤ 7 * tu) :
    TaskService.calculateDatesFromPosition
        (.num (TaskService.calculateTaskPixelPosition a b s e tu uw .week).1)
        (.num (TaskService.calculateTaskPixelPosition a b s e tu uw .week).2)
        s e tu uw .week
      = (some (max s (a / 86400000 * 86400000)),
         some (min e (b / 86400000 * 86400000 + 86399999))) := by
  have huw : (0 : ℚ) < uw := lt_of_lt_of_le (by norm_num) hfit1
  have huw7 : (0 : ℚ) < uw / 7 := by linarith
  have huw70 : uw / 7 ≠ 0 := ne_of_gt huw7
  rw [calcPix_week a b s e tu uw htu huw hsa hab hbe hfit1 hfit2]
  unfold TaskService.calculateDatesFromPosition TaskService.snappedDates
    TaskService.clampToWindow
  dsimp only
  simp only [jsDivN, jsRoundN, Option.map_some', Option.some_bind]
  rw [jsRound_int_mul_div (a / 86400000 - s / 86400000) (uw / 7) huw70,
    jsRound_int_mul_div (b / 86400000 - a / 86400000 + 1) (uw / 7) huw70]
  rw [max_eq_right (by omega : (1 : Int) ≤ b / 86400000 - a / 86400000 + 1)]
  rw [Prod.mk.injEq]
  constructor
  · split_ifs with h
    · exact congrArg some (by omega)
    · exact congrArg some (by omega)
  · split_ifs with h
    · exact congrArg some (by omega)
    · exact congrArg some (by omega)

/-- Round trip in `HOUR` view: the returned start is within one hour of the
hour-snapped task start, and the returned end within two hours of the
hour-snapped task end. -/
theorem round_trip_hour (a b s e : Int) (tu uw : ℚ) (htu : 0 < tu)
    (hsa : s ≤ a) (hab : a ≤ b) (hbe : b ≤ e) (hfit1 : 15 ≤ uw)
    (hfit2 : ((e - s / 3600000 * 3600000 : Int) : ℚ) / 3600000 + 2 ≤ tu) :
    ∃ ns ne : Int,
      TaskService.calculateDatesFromPosition
          (.num (TaskService.calculateTaskPixelPosition a b s e tu uw .hour).1)
          (.num (TaskService.calculateTaskPixelPosition a b s e tu uw .hour).2)
          s e tu uw .hour = (some ns, some ne)
      ∧ |ns - a / 3600000 * 3600000| ≤ 3600000
      ∧ |ne - (b / 3600000 * 3600000 + 3599999)| ≤ 7200000 := by
  have huw : (0 : ℚ) < uw := lt_of_lt_of_le (by norm_num) hfit1
  have huw1 : (1 : ℚ) < uw := lt_of_lt_of_le (by norm_num) hfit1
  rw [calcPix_hour a b s e tu uw htu huw hsa hbe]
  unfold TaskService.calculateDatesFromPosition TaskService.snappedDates
    TaskService.clampToWindow
  dsimp only
  simp only [jsDivN, jsRoundN, Option.map_some', Option.some_bind]
  set E : Int := e - s / 3600000 * 3600000 with hE
  set A : Int := a - s / 3600000 * 3600000 with hA
  set B : Int := b - a with hB
  set p : Int := A / 3600000 with hp
  set n1 : Int := (B + 3599999) / 3600000 with hn1
  set q : Int := (A + B) / 3600000 with hq
  have hA0 : 0 ≤ A := by omega
  have hB0 : 0 ≤ B := by omega
  have hp1 : (p : ℚ) ≤ (A : ℚ) / 3600000 := by
    have h := cast_le_div A p 3600000 (by norm_num) (by omega)
    push_cast at h
    exact h
  have hp2 : (A : ℚ) / 3600000 < (p : ℚ) + 1 := by
    have h := div_lt_cast A (p + 1) 3600000 (by norm_num) (by omega)
    push_cast at h
    linarith
  have hb1 : (n1 : ℚ) - 1 < (B : ℚ) / 3600000 := by
    have h := cast_lt_div B (n1 - 1) 3600000 (by norm_num) (by omega)
    push_cast at h
    linarith
  have hb2 : (B : ℚ) / 3600000 < (n1 : ℚ) + 1 := by
    have h := div_lt_cast B (n1 + 1) 3600000 (by norm_num) (by omega)
    push_cast at h
    linarith
  have hn1ge : (B : ℚ) / 3600000 ≤ (n1 : ℚ) := by
    have h := div_le_cast B n1 3600000 (by norm_num) (by omega)
    push_cast at h
    exact h
  have hq1 : (q : ℚ) ≤ (A : ℚ) / 3600000 + (B : ℚ) / 3600000 := by
    have h := cast_le_div (A + B) q 3600000 (by norm_num) (by omega)
    push_cast at h
    linarith
  have hq2 : (A : ℚ) / 3600000 + (B : ℚ) / 3600000 < (q : ℚ) + 1 := by
    have h := div_lt_cast (A + B) (q + 1) 3600000 (by norm_num) (by omega)
    push_cast at h
    linarith
  have hcap : (B : ℚ) / 3600000 * uw + uw - 1 / 2
      ≤ tu * uw - ((jsRound ((A : ℚ) / 3600000 * uw) : Int) : ℚ) := by
    have hL := jsRound_le ((A : ℚ) / 3600000 * uw)
    have h1 : ((A : ℚ) + (B : ℚ)) / 3600000 ≤ ((E / 3600000 : Int) : ℚ) + 1 := by
      have h := div_le_cast (A + B) (E / 3600000 + 1) 3600000 (by norm_num) (by omega)
      push_cast at h
      linarith
    have h2 : ((E / 3600000 : Int) : ℚ) ≤ (E : ℚ) / 3600000 := by
      have h := cast_le_div E (E / 3600000) 3600000 (by norm_num) (by omega)
      push_cast at h
      exact h
    have hsum : (A : ℚ) / 3600000 + (B : ℚ) / 3600000 + 1 ≤ tu := by
      have hr : (A : ℚ) / 3600000 + (B : ℚ) / 3600000 = ((A : ℚ) + (B : ℚ)) / 3600000 := by
        ring
      linarith
    have hmul := mul_le_mul_of_nonneg_right hsum huw.le
    have hexp : ((A : ℚ) / 3600000 + (B : ℚ) / 3600000 + 1) * uw
        = (A : ℚ) / 3600000 * uw + (B : ℚ) / 3600000 * uw + uw := by
      ring
    linarith
  obtain ⟨hm1, hm2⟩ := double_round_bracket ((A : ℚ) / 3600000) uw huw1 p hp1 hp2
  obtain ⟨hsp1, hsp2, hsp3⟩ := span_bracket ((B : ℚ) / 3600000) uw 15
    (tu * uw - ((jsRound ((A : ℚ) / 3600000 * uw) : Int) : ℚ)) n1 huw1 (by norm_num)
    hfit1 hb1 hb2 (by omega) hcap
  set m : Int := jsRound ((jsRound ((A : ℚ) / 3600000 * uw) : ℚ) / uw) with hmdef
  set sp : Int := max 1 (jsRound (min (tu * uw - ((jsRound ((A : ℚ) / 3600000 * uw) : Int) : ℚ))
    (max 15 ((jsRound ((B : ℚ) / 3600000 * uw) : Int) : ℚ)) / uw)) with hspdef
  have hmq1 : (p : ℚ) ≤ (m : ℚ) := by exact_mod_cast hm1
  have hmq2 : (m : ℚ) ≤ (p : ℚ) + 1 := by exact_mod_cast hm2
  have hspq1 : (n1 : ℚ) - 1 ≤ (sp : ℚ) := by exact_mod_cast hsp1
  have hspq2 : (sp : ℚ) ≤ (n1 : ℚ) + 1 := by exact_mod_cast hsp2
  have hlow : q - 1 ≤ m + sp := by
    have hc : (q : ℚ) < (m : ℚ) + (sp : ℚ) + 2 := by linarith
    have hc' : (q : Int) < m + sp + 2 := by exact_mod_cast hc
    omega
  have hhigh : m + sp ≤ q + 3 := by
    have hc : (m : ℚ) + (sp : ℚ) < (q : ℚ) + 4 := by linarith
    have hc' : (m + sp : Int) < q + 4 := by exact_mod_cast hc
    omega
  split_ifs with h1 h2 h2
  · exact ⟨s, e, rfl, abs_le.mpr ⟨by omega, by omega⟩, abs_le.mpr ⟨by omega, by omega⟩⟩
  · refine ⟨s, _, rfl, abs_le.mpr ⟨by omega, by omega⟩, abs_le.mpr ⟨by omega, by omega⟩⟩
  · refine ⟨_, e, rfl, abs_le.mpr ⟨by omega, by omega⟩, abs_le.mpr ⟨by omega, by omega⟩⟩
  · refine ⟨_, _, rfl, abs_le.mpr ⟨by omega, by omega⟩, abs_le.mpr ⟨by omega, by omega⟩⟩

/-- Round trip in `MINUTE` view, for a minute-aligned window start: the
returned start is within one minute of the minute-snapped task start, and
the returned end within two minutes of the minute-snapped task end. -/
theorem round_trip_minute (a b s e : Int) (tu uw : ℚ) (htu : 0 < tu)
    (hsa : s ≤ a) (hab : a ≤ b) (hbe : b ≤ e) (hs60 : s % 60000 = 0) (hfit1 : 10 ≤ uw)
    (hfit2 : ((e - s : Int) : ℚ) / 60000 + 2 ≤ tu) :
    ∃ ns ne : Int,
      TaskService.calculateDatesFromPosition
          (.num (TaskService.calculateTaskPixelPosition a b s e tu uw .minute).1)
          (.num (TaskService.calculateTaskPixelPosition a b s e tu uw .minute).2)
          s e tu uw .minute = (some ns, some ne)
      ∧ |ns - a / 60000 * 60000| ≤ 60000
      ∧ |ne - (b / 60000 * 60000 + 59999)| ≤ 120000 := by
  have huw : (0 : ℚ) < uw := lt_of_lt_of_le (by norm_num) hfit1
  have huw1 : (1 : ℚ) < uw := lt_of_lt_of_le (by norm_num) hfit1
  rw [calcPix_minute a b s e tu uw htu huw hsa hbe]
  unfold TaskService.calculateDatesFromPosition TaskService.snappedDates
    TaskService.clampToWindow
  dsimp only
  simp only [jsDivN, jsRoundN, Option.map_some', Option.some_bind]
  set E : Int := e - s with hE
  set A : Int := a - s with hA
  set B : Int := b - a with hB
  set p : Int := A / 60000 with hp
  set n1 : Int := (B + 59999) / 60000 with hn1
  set q : Int := (A + B) / 60000 with hq
  have hA0 : 0 ≤ A := by omega
  have hB0 : 0 ≤ B := by omega
  have hp1 : (p : ℚ) ≤ (A : ℚ) / 60000 := by
    have h := cast_le_div A p 60000 (by norm_num) (by omega)
    push_cast at h
    exact h
  have hp2 : (A : ℚ) / 60000 < (p : ℚ) + 1 := by
    have h := div_lt_cast A (p + 1) 60000 (by norm_num) (by omega)
    push_cast at h
    linarith
  have hb1 : (n1 : ℚ) - 1 < (B : ℚ) / 60000 := by
    have h := cast_lt_div B (n1 - 1) 60000 (by norm_num) (by omega)
    push_cast at h
    linarith
  have hb2 : (B : ℚ) / 60000 < (n1 : ℚ) + 1 := by
    have h := div_lt_cast B (n1 + 1) 60000 (by norm_num) (by omega)
    push_cast at h
    linarith
  have hn1ge : (B : ℚ) / 60000 ≤ (n1 : ℚ) := by
    have h := div_le_cast B n1 60000 (by norm_num) (by omega)
    push_cast at h
    exact h
  have hq1 : (q : ℚ) ≤ (A : ℚ) / 60000 + (B : ℚ) / 60000 := by
    have h := cast_le_div (A + B) q 60000 (by norm_num) (by omega)
    push_cast at h
    linarith
  have hq2 : (A : ℚ) / 60000 + (B : ℚ) / 60000 < (q : ℚ) + 1 := by
    have h := div_lt_cast (A + B) (q + 1) 60000 (by norm_num) (by omega)
    push_cast at h
    linarith
  have hcap : (B : ℚ) / 60000 * uw + uw - 1 / 2
      ≤ tu * uw - ((jsRound ((A : ℚ) / 60000 * uw) : Int) : ℚ) := by
    have hL := jsRound_le ((A : ℚ) / 60000 * uw)
    have h1 : ((A : ℚ) + (B : ℚ)) / 60000 ≤ ((E / 60000 : Int) : ℚ) + 1 := by
      have h := div_le_cast (A + B) (E / 60000 + 1) 60000 (by norm_num) (by omega)
      push_cast at h
      linarith
    have h2 : ((E / 60000 : Int) : ℚ) ≤ (E : ℚ) / 60000 := by
      have h := cast_le_div E (E / 60000) 60000 (by norm_num) (by omega)
      push_cast at h
      exact h
    have hsum : (A : ℚ) / 60000 + (B : ℚ) / 60000 + 1 ≤ tu := by
      have hr : (A : ℚ) / 60000 + (B : ℚ) / 60000 = ((A : ℚ) + (B : ℚ)) / 60000 := by
        ring
      linarith
    have hmul := mul_le_mul_of_nonneg_right hsum huw.le
    have hexp : ((A : ℚ) / 60000 + (B : ℚ) / 60000 + 1) * uw
        = (A : ℚ) / 60000 * uw + (B : ℚ) / 60000 * uw + uw := by
      ring
    linarith
  obtain ⟨hm1, hm2⟩ := double_round_bracket ((A : ℚ) / 60000) uw huw1 p hp1 hp2
  obtain ⟨hsp1, hsp2, hsp3⟩ := span_bracket ((B : ℚ) / 60000) uw 10
    (tu * uw - ((jsRound ((A : ℚ) / 60000 * uw) : Int) : ℚ)) n1 huw1 (by norm_num)
    hfit1 hb1 hb2 (by omega) hcap
  set m : Int := jsRound ((jsRound ((A : ℚ) / 60000 * uw) : ℚ) / uw) with hmdef
  set sp : Int := max 1 (jsRound (min (tu * uw - ((jsRound ((A : ℚ) / 60000 * uw) : Int) : ℚ))
    (max 10 ((jsRound ((B : ℚ) / 60000 * uw) : Int) : ℚ)) / uw)) with hspdef
  have hmq1 : (p : ℚ) ≤ (m : ℚ) := by exact_mod_cast hm1
  have hmq2 : (m : ℚ) ≤ (p : ℚ) + 1 := by exact_mod_cast hm2
  have hspq1 : (n1 : ℚ) - 1 ≤ (sp : ℚ) := by exact_mod_cast hsp1
  have hspq2 : (sp : ℚ) ≤ (n1 : ℚ) + 1 := by exact_mod_cast hsp2
  have hlow : q - 1 ≤ m + sp := by
    have hc : (q : ℚ) < (m : ℚ) + (sp : ℚ) + 2 := by linarith
    have hc' : (q : Int) < m + sp + 2 := by exact_mod_cast hc
    omega
  have hhigh : m + sp ≤ q + 3 := by
    have hc : (m : ℚ) + (sp : ℚ) < (q : ℚ) + 4 := by linarith
    have hc' : (m + sp : Int) < q + 4 := by exact_mod_cast hc
    omega
  split_ifs with h1 h2 h2
  · exact ⟨s, e, rfl, abs_le.mpr ⟨by omega, by omega⟩, abs_le.mpr ⟨by omega, by omega⟩⟩
  · refine ⟨s, _, rfl, abs_le.mpr ⟨by omega, by omega⟩, abs_le.mpr ⟨by omega, by omega⟩⟩
  · refine ⟨_, e, rfl, abs_le.mpr ⟨by omega, by omega⟩, abs_le.mpr ⟨by omega, by omega⟩⟩
  · refine ⟨_, _, rfl, abs_le.mpr ⟨by omega, by omega⟩, abs_le.mpr ⟨by omega, by omega⟩⟩

/-- A grid-consistent window configuration for the four snapping view modes:
the unit width is at least the mode's minimum bar width (at least 20 px per
day-slot for `WEEK`), and `totalUnits` units cover the window span (with one
unit of slack for `MINUTE`/`HOUR`, whose rounded pixel cap can otherwise cut
the bar); for `MINUTE` the window start lies on a minute boundary.  The
remaining view modes do not snap, so the round-trip property is not about
them. -/
def windowFits (viewMode : ViewMode) (s e : Int) (tu uw : ℚ) : Prop :=
  match viewMode with
  | .minute => 10 ≤ uw ∧ s % 60000 = 0 ∧ ((e - s : Int) : ℚ) / 60000 + 2 ≤ tu
  | .hour => 15 ≤ uw ∧ ((e - s / 3600000 * 3600000 : Int) : ℚ) / 3600000 + 2 ≤ tu
  | .day => 20 ≤ uw ∧ ((e / 86400000 - s / 86400000 + 1 : Int) : ℚ) ≤ tu
  | .week => 140 ≤ uw ∧ ((e / 86400000 - s / 86400000 + 1 : Int) : ℚ) ≤ 7 * tu
  | _ => False

/-- Claim C1, amended: for a task inside a grid-consistent window, converting
its dates to a pixel interval with `calculateTaskPixelPosition` and back with
`calculateDatesFromPosition` yields valid dates whose start is within one
snap unit of the snapped original start and whose end is within two snap
units of the snapped original end; for `DAY` and `WEEK` both distances are
strictly below one snap unit.  (As literally stated — strictly below one
unit in every mode — the claim fails; see the counterexample.) -/
theorem round_trip_amended (viewMode : ViewMode) (a b s e : Int) (tu uw : ℚ)
    (htu : 0 < tu) (hsa : s ≤ a) (hab : a ≤ b) (hbe : b ≤ e)
    (hfit : windowFits viewMode s e tu uw) :
    ∃ ns ne : Int,
      TaskService.calculateDatesFromPosition
          (.num (TaskService.calculateTaskPixelPosition a b s e tu uw viewMode).1)
          (.num (TaskService.calculateTaskPixelPosition a b s e tu uw viewMode).2)
          s e tu uw viewMode = (some ns, some ne)
      ∧ |ns - specSnappedStart viewMode a| ≤ specSnapUnitMs viewMode
      ∧ |ne - specSnappedEnd viewMode b| ≤ 2 * specSnapUnitMs viewMode
      ∧ (viewMode = .day ∨ viewMode = .week →
          |ns - specSnappedStart viewMode a| < specSnapUnitMs viewMode
          ∧ |ne - specSnappedEnd viewMode b| < specSnapUnitMs viewMode) := by
  cases viewMode
  case minute =>
    obtain ⟨hf1, hf2, hf3⟩ := hfit
    obtain ⟨ns, ne, heq, hb1, hb2⟩ := round_trip_minute a b s e tu uw htu hsa hab hbe hf2 hf1 hf3
    have h1 := abs_le.mp hb1
    have h2 := abs_le.mp hb2
    refine ⟨ns, ne, heq, ?_, ?_, by rintro (h | h) <;> cases h⟩
    · simp only [specSnappedStart, specSnapUnitMs]
      exact abs_le.mpr ⟨by omega, by omega⟩
    · simp only [specSnappedEnd, specSnapUnitMs]
      exact abs_le.mpr ⟨by omega, by omega⟩
  case hour =>
    obtain ⟨hf1, hf2⟩ := hfit
    obtain ⟨ns, ne, heq, hb1, hb2⟩ := round_trip_hour a b s e tu uw htu hsa hab hbe hf1 hf2
    have h1 := abs_le.mp hb1
    have h2 := abs_le.mp hb2
    refine ⟨ns, ne, heq, ?_, ?_, by rintro (h | h) <;> cases h⟩
    · simp only [specSnappedStart, specSnapUnitMs]
      exact abs_le.mpr ⟨by omega, by omega⟩
    · simp only [specSnappedEnd, specSnapUnitMs]
      exact abs_le.mpr ⟨by omega, by omega⟩
  case day =>
    obtain ⟨hf1, hf2⟩ := hfit
    have heq := round_trip_day a b s e tu uw htu hsa hab hbe hf1 hf2
    refine ⟨max s (a / 86400000 * 86400000), min e (b / 86400000 * 86400000 + 86399999), heq,
      ?_, ?_, fun _ => ⟨?_, ?_⟩⟩
    · simp only [specSnappedStart, specSnapUnitMs]
      exact abs_le.mpr ⟨by omega, by omega⟩
    · simp only [specSnappedEnd, specSnapUnitMs]
      exact abs_le.mpr ⟨by omega, by omega⟩
    · simp only [specSnappedStart, specSnapUnitMs]
      exact abs_lt.mpr ⟨by omega, by omega⟩
    · simp only [specSnappedEnd, specSnapUnitMs]
      exact abs_lt.mpr ⟨by omega, by omega⟩
  case week =>
    obtain ⟨hf1, hf2⟩ := hfit
    have heq := round_trip_week a b s e tu uw htu hsa hab hbe hf1 hf2
    refine ⟨max s (a / 86400000 * 86400000), min e (b / 86400000 * 86400000 + 86399999), heq,
      ?_, ?_, fun _ => ⟨?_, ?_⟩⟩
    · simp only [specSnappedStart, specSnapUnitMs]
      exact abs_le.mpr ⟨by omega, by omega⟩
    · simp only [specSnappedEnd, specSnapUnitMs]
      exact abs_le.mpr ⟨by omega, by omega⟩
    · simp only [specSnappedStart, specSnapUnitMs]
      exact abs_lt.mpr ⟨by omega, by omega⟩
    · simp only [specSnappedEnd, specSnapUnitMs]
      exact abs_lt.mpr ⟨by omega, by omega⟩
  case month => exact hfit.elim
  case quarter => exact hfit.elim
  case year => exact hfit.elim

/-- Witness for `round_trip_amended`: a two-day window in `DAY` view, a task
covering the second day, `totalUnits = 2`, `unitWidth = 150`. -/
theorem round_trip_amended_witness :
    ∃ ns ne : Int,
      TaskService.calculateDatesFromPosition
          (.num (TaskService.calculateTaskPixelPosition 0 86400000 0 172799999 2 150 .day).1)
          (.num (TaskService.calculateTaskPixelPosition 0 86400000 0 172799999 2 150 .day).2)
          0 172799999 2 150 .day = (some ns, some ne)
      ∧ |ns - specSnappedStart .day 0| ≤ specSnapUnitMs .day
      ∧ |ne - specSnappedEnd .day 86400000| ≤ 2 * specSnapUnitMs .day
      ∧ (ViewMode.day = .day ∨ ViewMode.day = .week →
          |ns - specSnappedStart .day 0| < specSnapUnitMs .day
          ∧ |ne - specSnappedEnd .day 86400000| < specSnapUnitMs .day) :=
  round_trip_amended .day 0 86400000 0 172799999 2 150 (by norm_num) (by decide) (by decide)
    (by decide)
    ⟨by norm_num, by exact_mod_cast (by decide : (172799999 / 86400000 - 0 / 86400000 + 1 : Int) ≤ 2)⟩

/-- Counterexample to claim C1 as stated: in `MINUTE` view, a task starting
1.499 minutes into the window maps forward to `left = 450 px` (unit width
300), and back to a start two whole minutes into the window — exactly one
grid quantum away from the snapped form of the original start, not
strictly less than one. -/
theorem round_trip_strict_bound_fails :
    TaskService.calculateTaskPixelPosition 89940 299999 0 7199999 120 300 .minute
      = (450, 1050) ∧
    TaskService.calculateDatesFromPosition (.num 450) (.num 1050) 0 7199999 120 300 .minute
      = (some 120000, some 359999) ∧
    specSnappedStart .minute 89940 = 60000 ∧
    ¬(|(120000 : Int) - 60000| < 60000) := by
  refine ⟨?_, ?_, by decide, by decide⟩
  · simp only [TaskService.calculateTaskPixelPosition, TaskService.normalizeWindow,
      TaskService.normalizeTask, TaskService.totalTimelineRange,
      TaskService.minWidthByViewMode, jsRound]
    norm_num [Int.floor_eq_iff]
  · simp only [TaskService.calculateDatesFromPosition, TaskService.snappedDates,
      TaskService.clampToWindow, TaskService.timelineDuration, jsDivN, jsRoundN, jsRound,
      Option.map_some', Option.some_bind]
    norm_num [Int.floor_eq_iff]

/-- Counterexample to claim C2 as stated: in `DAY` view with a 30-day window,
`left = 10000 px` (100 units of 100 px) snaps the start 100 days in, far
beyond the window end; the clamp only pulls the end back, so the returned
interval has `newStartDate > newEndDate` (and `newStartDate >
window.endDate`). -/
theorem clamp_chain_fails_beyond_right_edge :
    TaskService.calculateDatesFromPosition (.num 10000) (.num 100) 0 2591999999 30 100 .day
      = (some 8640000000, some 2591999999) ∧
    ¬((8640000000 : Int) ≤ 2591999999) := by
  refine ⟨?_, by decide⟩
  simp only [TaskService.calculateDatesFromPosition, TaskService.snappedDates,
    TaskService.clampToWindow, TaskService.timelineDuration, jsDivN, jsRoundN, jsRound,
    Option.map_some', Option.some_bind]
  norm_num [Int.floor_eq_iff]

/-- Counterexample to claim C3 as stated: a zero-length task at the very end
of a `MONTH` window gets `leftPx = totalUnits * unitWidth`, so the final
width cap `min (totalPixelWidth - leftPx)` forces `widthPx = 0`, below the
20 px minimum. -/
theorem minimum_width_fails_at_right_edge :
    TaskService.calculateTaskPixelPosition 1000 1000 0 1000 1 100 .month = (100, 0) ∧
    ¬(TaskService.minWidthByViewMode .month ≤ 0) := by
  constructor
  · simp only [TaskService.calculateTaskPixelPosition, TaskService.normalizeWindow,
      TaskService.normalizeTask, TaskService.totalTimelineRange,
      TaskService.minWidthByViewMode, jsRound]
    norm_num
  · simp only [TaskService.minWidthByViewMode]
    norm_num

/-- Claim C3, amended: the returned width is always at least the smaller of
`minPixelWidth viewMode` and the remaining room `totalUnits * unitWidth -
leftPx`; in particular it is at least `minPixelWidth viewMode` whenever the
bar leaves that much room before the right edge. -/
theorem minimum_width_amended (taskStartDate taskEndDate startDate endDate : Int)
    (totalUnits unitWidth : ℚ) (viewMode : ViewMode)
    (htu : 0 < totalUnits) (huw : 0 < unitWidth) :
    min (TaskService.minWidthByViewMode viewMode)
        (totalUnits * unitWidth
          - (TaskService.calculateTaskPixelPosition taskStartDate taskEndDate startDate endDate
              totalUnits unitWidth viewMode).1)
      ≤ (TaskService.calculateTaskPixelPosition taskStartDate taskEndDate startDate endDate
          totalUnits unitWidth viewMode).2 := by
  unfold TaskService.calculateTaskPixelPosition
  cases viewMode <;> dsimp only <;>
    exact le_min (min_le_right _ _) (le_trans (min_le_left _ _) (le_max_left _ _))

/-- Counterexample to claim C6 as stated: (a) in `WEEK` view a single week
starting at the epoch emits one span of `1`, while the elapsed-day count of
the full range is `7`; (b) in `DAY` view a single unit emits no groups at
all (sum `0`), while the elapsed-day count of its range is `1`. -/
theorem header_coverage_fails_as_stated :
    (((Timeline.getHigherLevelUnits [0] .week).map Timeline.HeaderUnit.span).sum = 1 ∧
      ((0 + 7 * 86400000 - 0 : Int) : ℚ) / ((86400000 : Int) : ℚ) = 7 ∧ (1 : ℚ) ≠ 7) ∧
    (Timeline.getHigherLevelUnits [0] .day = [] ∧
      ((0 + 1 * 86400000 - 0 : Int) : ℚ) / ((86400000 : Int) : ℚ) = 1 ∧
      ((0 : ℚ) ≠ 1)) := by
  have h1 : Timeline.getHigherLevelUnits [0] .week
      = [⟨0, ((604800000 - 0 : Int) : ℚ) / ((604800000 : Int) : ℚ)⟩] := rfl
  refine ⟨⟨?_, by norm_num, by norm_num⟩, by decide, by norm_num, by norm_num⟩
  rw [h1]
  simp

/-- Monotonicity of the `new Date(number)` truncation. -/
theorem ratTrunc_mono {a b : ℚ} (h : a ≤ b) : ratTrunc a ≤ ratTrunc b := by
  unfold ratTrunc
  rcases le_or_lt 0 a with ha | ha <;> rcases le_or_lt 0 b with hb | hb
  · rw [if_pos ha, if_pos hb]
    exact Int.floor_le_floor h
  · linarith
  · rw [if_neg (not_le.mpr ha), if_pos hb]
    calc (⌈a⌉ : ℤ) ≤ 0 := Int.ceil_le.mpr (by push_cast; linarith)
      _ ≤ ⌊b⌋ := Int.le_floor.mpr (by push_cast; linarith)
  · rw [if_neg (not_le.mpr ha), if_neg (not_le.mpr hb)]
    exact Int.ceil_le_ceil h

/-- Auxiliary bound for the default (`startOfDay`/`endOfDay`) snapping branch. -/
theorem default_snap_le {x y : ℚ} (hxy : x ≤ y) :
    ratTrunc x / 86400000 * 86400000 ≤ ratTrunc y / 86400000 * 86400000 + 86399999 := by
  have := ratTrunc_mono hxy
  omega

/-- The snapping stage produces an ordered interval on numeric inputs (for a
non-degenerate window). -/
theorem snapped_start_le_end (left width : ℚ) (startDate endDate : Int)
    (totalUnits unitWidth : ℚ) (viewMode : ViewMode)
    (htu : 0 < totalUnits) (huw : 0 < unitWidth) (hse : startDate ≤ endDate) (sp ep : Int)
    (h : TaskService.snappedDates (.num left) (.num width) startDate endDate totalUnits
        unitWidth viewMode = (some sp, some ep)) : sp ≤ ep := by
  have hw20 : (20 : ℚ) ≤ (if width < 20 then 20 else width) := by
    split
    · exact le_refl 20
    next hw => exact le_of_not_lt hw
  have hcast : ((startDate : ℚ)) ≤ ((endDate : ℚ)) := Int.cast_le.mpr hse
  cases viewMode <;>
    simp only [TaskService.snappedDates, TaskService.timelineDuration, jsDivN, jsRoundN,
      jsRound, Option.map_some', Option.some_bind, Prod.mk.injEq, Option.some.injEq] at h
  case minute =>
    obtain ⟨h1, h2⟩ := h
    set m := max 1 ⌊width / unitWidth + 1 / 2⌋ with hmdef
    have hm : 1 ≤ m := le_max_left _ _
    omega
  case hour =>
    obtain ⟨h1, h2⟩ := h
    set m := max 1 ⌊width / unitWidth + 1 / 2⌋ with hmdef
    have hm : 1 ≤ m := le_max_left _ _
    omega
  case day =>
    obtain ⟨h1, h2⟩ := h
    set m := max 1 ⌊width / unitWidth + 1 / 2⌋ with hmdef
    have hm : 1 ≤ m := le_max_left _ _
    omega
  case week =>
    obtain ⟨h1, h2⟩ := h
    set m := max 1 ⌊width / (unitWidth / 7) + 1 / 2⌋ with hmdef
    have hm : 1 ≤ m := le_max_left _ _
    omega
  all_goals
    obtain ⟨h1, h2⟩ := h
  all_goals
    rw [← h1, ← h2]
  all_goals
    apply default_snap_le
  all_goals
    apply le_add_of_nonneg_right
  all_goals
    apply mul_nonneg (by linarith)
  all_goals
    apply div_nonneg (by push_cast; linarith)
  all_goals
    positivity

/-- Claim C2, amended: the terminal clamp returns exactly
`(max window.start snappedStart, min window.end snappedEnd)`, so the output
always satisfies `window.startDate ≤ newStartDate` and
`newEndDate ≤ window.endDate`; the full chain `window.startDate ≤
newStartDate ≤ newEndDate ≤ window.endDate` additionally holds whenever the
snapped (pre-clamp) interval intersects the window.  (With `left` far beyond
the right edge the snapped start exceeds the window end and the returned
start exceeds the returned end.) -/
theorem clamping_postcondition_amended (left width : ℚ) (startDate endDate : Int)
    (totalUnits unitWidth : ℚ) (viewMode : ViewMode)
    (htu : 0 < totalUnits) (huw : 0 < unitWidth) (hse : startDate ≤ endDate) (sp ep : Int)
    (h : TaskService.snappedDates (.num left) (.num width) startDate endDate totalUnits
        unitWidth viewMode = (some sp, some ep)) :
    TaskService.calculateDatesFromPosition (.num left) (.num width) startDate endDate
        totalUnits unitWidth viewMode
      = (some (max startDate sp), some (min endDate ep)) ∧
    startDate ≤ max startDate sp ∧ min endDate ep ≤ endDate ∧
    (sp ≤ endDate → startDate ≤ ep → max startDate sp ≤ min endDate ep) := by
  have hle := snapped_start_le_end left width startDate endDate totalUnits unitWidth viewMode
    htu huw hse sp ep h
  refine ⟨?_, le_max_left _ _, min_le_left _ _,
    fun h1 h2 => max_le (le_min hse h2) (le_min h1 hle)⟩
  unfold TaskService.calculateDatesFromPosition
  rw [h]
  unfold TaskService.clampToWindow
  dsimp only
  congr 1
  · rcases lt_or_le sp startDate with hc | hc
    · rw [if_pos hc, max_eq_left hc.le]
    · rw [if_neg (not_lt.mpr hc), max_eq_right hc]
  · rcases lt_or_le endDate ep with hc | hc
    · rw [if_pos hc, min_eq_left hc.le]
    · rw [if_neg (not_lt.mpr hc), min_eq_right hc]

/-- Witness for `clamping_postcondition_amended` at a concrete input. -/
theorem clamping_postcondition_amended_witness :
    TaskService.calculateDatesFromPosition (.num 300) (.num 450) 1704067200000 1706659200000
        30 150 .day
      = (some (max 1704067200000 1704240000000), some (min 1706659200000 1704499199999)) ∧
    (1704067200000 : Int) ≤ max 1704067200000 1704240000000 ∧
    min 1706659200000 1704499199999 ≤ (1706659200000 : Int) ∧
    ((1704240000000 : Int) ≤ 1706659200000 → (1704067200000 : Int) ≤ 1704499199999 →
      max (1704067200000 : Int) 1704240000000 ≤ min 1706659200000 1704499199999) := by
  have hsnap : TaskService.snappedDates (.num 300) (.num 450) 1704067200000 1706659200000
      30 150 .day = (some 1704240000000, some 1704499199999) := by
    simp only [TaskService.snappedDates, TaskService.timelineDuration, jsDivN, jsRoundN,
      jsRound, Option.map_some', Option.some_bind]
    norm_num [Int.floor_eq_iff]
  exact clamping_postcondition_amended 300 450 1704067200000 1706659200000 30 150 .day
    (by norm_num) (by norm_num) (by norm_num) 1704240000000 1704499199999 hsnap

/-- Witness for `minimum_width_amended` at a concrete input. -/
theorem minimum_width_amended_witness :
    min (TaskService.minWidthByViewMode .day)
        (30 * 150 - (TaskService.calculateTaskPixelPosition 1704240000000 1704499199999
            1704067200000 1706659200000 30 150 .day).1)
      ≤ (TaskService.calculateTaskPixelPosition 1704240000000 1704499199999
          1704067200000 1706659200000 30 150 .day).2 :=
  minimum_width_amended 1704240000000 1704499199999 1704067200000 1706659200000 30 150 .day
    (by norm_num) (by norm_num)
